import Mathlib

/-!
Verification of the busferrytrain itinerary search pipeline.

This file gives a shallow embedding, in Lean 4, of the pure core of the
repository: the trip data model (`src/types/index.ts`), the deduplication
function of the search route (`src/app/api/chat/route.ts`, combined file,
`deduplicateTrips`), the two upstream response adapters
(`src/lib/tc-api-client.ts` `parseItinerariesResponse` and the legacy
mTLS client `parseApiResponse`), the non-streaming city-to-city fan-out
aggregation of the search route `GET` handler, the client filter engine
(`applyFilters` in the search hook), the station fuzzy search
(`src/lib/stations-loader.ts` `searchStations`), the POI name resolver
(`src/lib/poi-loader.ts` `normalizeName` / `translateToPOI`), and the
accumulate-versus-replace reducer of the chat tool loop.

Modelling conventions:
* JavaScript numbers are modelled as `Rat` where fractional values occur
  (prices) and as `Int`/`Nat` elsewhere; floating-point rounding is not
  modelled (no claim here depends on it).
* JavaScript `Array.prototype.sort` is stable and sorts by the supplied
  comparator; it is modelled by `List.mergeSort`, which is likewise stable.
* JavaScript `Map` preserves first-insertion order of keys and `Map.set` on
  an existing key updates the value in place; this is modelled by an
  association list with an in-place upsert.
* `String.prototype.localeCompare` is modelled as lexicographic string
  comparison, which agrees with it on the ASCII machine-generated strings
  ("HH:MM" times) compared in this code.
-/

/-- Vehicle type of a trip, `VehicleType` in `src/types/index.ts`. -/
inductive VehicleType where
  | bus
  | ferry
  | train
deriving DecidableEq, Repr

/-- An origin/destination reference inside a trip:
`{id, name, city}` in `src/types/index.ts`. -/
structure PlaceRef where
  id : String
  name : String
  city : String
deriving DecidableEq, Repr

/-- A price, `{amount, currency}`; `amount` is a JS number, modelled as `Rat`. -/
structure Price where
  amount : Rat
  currency : String
deriving DecidableEq, Repr

/-- One leg of a trip, `TripSegment` in `src/types/index.ts`. -/
structure TripSegment where
  origin : PlaceRef
  destination : PlaceRef
  departureTime : String
  arrivalTime : String
  vehicleType : VehicleType
  operator : String
deriving DecidableEq, Repr

/-- The canonical normalized trip, `TripOption` in `src/types/index.ts`.
`duration` is a JS number of minutes (the legacy adapter can produce a
negative value, so `Int`); `availableSeats` likewise. -/
structure TripOption where
  id : String
  bookingToken : String
  departureTime : String
  arrivalTime : String
  departureDate : String
  arrivalDate : String
  duration : Int
  price : Price
  operator : String
  operatorLogo : Option String
  vehicleType : VehicleType
  availableSeats : Int
  amenities : List String
  segments : List TripSegment
  redirectUrl : String
  origin : PlaceRef
  destination : PlaceRef
deriving DecidableEq, Repr

/-- Decimal rendering of a rational, mimicking JS `Number.prototype.toString`
for integers and finite decimals (the values that reach the dedup key:
integral seat-count-free prices and `units + nanos/1e9` fixed-point prices).
Rationals with up to 9 decimal places print as sign, integer part, ".",
fraction with the minimal number of digits; integers print with no point. -/
def ratToDecimalString (q : Rat) : String :=
  match (List.range 10).find? (fun k => (10 ^ k : Nat) % q.den = 0) with
  | some k =>
    if k = 0 then toString q.num
    else
      let scaled : Nat := q.num.natAbs * (10 ^ k / q.den)
      let ip : Nat := scaled / 10 ^ k
      let fp : Nat := scaled % 10 ^ k
      let fs : String := Nat.repr fp
      let fsPad : String := String.mk (List.replicate (k - fs.length) '0') ++ fs
      (if q.num < 0 then "-" else "") ++ Nat.repr ip ++ "." ++ fsPad
  | none => toString q

/-- The dedup key of `deduplicateTrips` and `getTripKey` in the search route:
the template string
`departureTime-arrivalTime-operator-price.amount`. -/
def tripKey (t : TripOption) : String :=
  t.departureTime ++ "-" ++ t.arrivalTime ++ "-" ++ t.operator ++ "-" ++
    ratToDecimalString t.price.amount

/-- The duplicate-resolution step of `deduplicateTrips`: the held entry `e`
is replaced by `t` exactly when `t.availableSeats > e.availableSeats`. -/
def keepMoreSeats (e t : TripOption) : TripOption :=
  if t.availableSeats > e.availableSeats then t else e

/-- One iteration of the `for (const trip of trips)` loop of
`deduplicateTrips` on the JS `Map`, modelled as an association list in
insertion order: a fresh key is appended, an existing key keeps its
position and its value is updated by the seat rule (`Map.set` on an
existing key does not move the entry). -/
def upsertMax : List (String × TripOption) → TripOption → List (String × TripOption)
  | [], t => [(tripKey t, t)]
  | (k, e) :: rest, t =>
    if k = tripKey t then
      if t.availableSeats > e.availableSeats then (k, t) :: rest
      else (k, e) :: rest
    else (k, e) :: upsertMax rest t

/-- `deduplicateTrips` from the search route (`src/app/api/chat/route.ts`
combined file, lines 684-699): fold the trips into a keyed map, keeping per
key the trip with strictly more seats (first seen wins ties), and return
the map values in insertion order. -/
def deduplicateTrips (trips : List TripOption) : List TripOption :=
  (trips.foldl upsertMax []).map Prod.snd

/-- Association-list lookup (first match), the model of `Map.get`. -/
def alookup : List (String × TripOption) → String → Option TripOption
  | [], _ => none
  | (k, v) :: rest, q => if k = q then some v else alookup rest q

/-- Keys of the association list, in insertion order. -/
def keysOf (m : List (String × TripOption)) : List String :=
  m.map Prod.fst

/-- The survivor of a stream of same-key trips, folded by the seat rule. -/
def pickSurvivor : Option TripOption → List TripOption → Option TripOption
  | acc, [] => acc
  | none, t :: r => pickSurvivor (some t) r
  | some e, t :: r => pickSurvivor (some (keepMoreSeats e t)) r

theorem alookup_upsert_eq (m : List (String × TripOption)) (t : TripOption) :
    alookup (upsertMax m t) (tripKey t) =
      some (match alookup m (tripKey t) with
            | none => t
            | some e => keepMoreSeats e t) := by
  induction m with
  | nil => simp [upsertMax, alookup]
  | cons p rest ih =>
    obtain ⟨k, e⟩ := p
    by_cases hk : k = tripKey t
    · subst hk
      by_cases hs : t.availableSeats > e.availableSeats <;>
        simp [upsertMax, alookup, hs, keepMoreSeats]
    · simp [upsertMax, alookup, hk, ih]

theorem alookup_upsert_ne (m : List (String × TripOption)) (t : TripOption)
    (q : String) (h : q ≠ tripKey t) :
    alookup (upsertMax m t) q = alookup m q := by
  have h2 : ¬ tripKey t = q := fun hh => h hh.symm
  induction m with
  | nil => simp [upsertMax, alookup, h2]
  | cons p rest ih =>
    obtain ⟨k, e⟩ := p
    by_cases hk : k = tripKey t
    · subst hk
      by_cases hs : t.availableSeats > e.availableSeats <;>
        simp [upsertMax, alookup, hs, h2, ih]
    · by_cases hq : k = q
      · subst hq
        simp [upsertMax, alookup, hk, h2]
      · simp [upsertMax, alookup, hk, hq, ih]

theorem alookup_foldl_upsert (ts : List TripOption) :
    ∀ (m : List (String × TripOption)) (q : String),
      alookup (ts.foldl upsertMax m) q =
        pickSurvivor (alookup m q) (ts.filter (fun t => tripKey t = q)) := by
  induction ts with
  | nil => intro m q; simp [pickSurvivor]
  | cons t ts ih =>
    intro m q
    by_cases hk : tripKey t = q
    · subst hk
      rw [List.foldl_cons, ih, alookup_upsert_eq]
      cases h : alookup m (tripKey t) <;>
        simp [List.filter_cons, pickSurvivor, h]
    · rw [List.foldl_cons, ih, alookup_upsert_ne _ _ _ (fun hq => hk hq.symm)]
      simp [List.filter_cons, hk]

theorem keysOf_upsert (m : List (String × TripOption)) (t : TripOption) :
    keysOf (upsertMax m t) =
      if tripKey t ∈ keysOf m then keysOf m else keysOf m ++ [tripKey t] := by
  induction m with
  | nil => simp [upsertMax, keysOf]
  | cons p rest ih =>
    obtain ⟨k, e⟩ := p
    by_cases hk : k = tripKey t
    · subst hk
      by_cases hs : t.availableSeats > e.availableSeats <;>
        simp [upsertMax, keysOf, hs]
    · have hk2 : ¬ tripKey t = k := fun hh => hk hh.symm
      have ih2 := ih
      simp only [keysOf] at ih2 ⊢
      simp only [upsertMax, if_neg hk, List.map_cons, ih2]
      by_cases hmem : tripKey t ∈ List.map Prod.fst rest <;>
        simp [List.mem_cons, hmem, hk2]

/-- Invariant of the dedup map: every entry is stored under its own key. -/
def WFMap (m : List (String × TripOption)) : Prop :=
  ∀ p ∈ m, p.1 = tripKey p.2

theorem wfMap_upsert {m : List (String × TripOption)} (t : TripOption)
    (h : WFMap m) : WFMap (upsertMax m t) := by
  induction m with
  | nil =>
    intro p hp
    simp [upsertMax] at hp
    simp [hp]
  | cons q rest ih =>
    obtain ⟨k, e⟩ := q
    have hke : k = tripKey e := h (k, e) (List.mem_cons_self _ _)
    have hrest : WFMap rest := fun p hp => h p (List.mem_cons_of_mem _ hp)
    by_cases hk : k = tripKey t
    · subst hk
      intro p hp
      by_cases hs : t.availableSeats > e.availableSeats
      · simp [upsertMax, hs] at hp
        rcases hp with hp | hp
        · simp [hp]
        · exact hrest p hp
      · simp [upsertMax, hs] at hp
        rcases hp with hp | hp
        · rw [hp]; exact hke
        · exact hrest p hp
    · intro p hp
      simp [upsertMax, hk] at hp
      rcases hp with hp | hp
      · rw [hp]; exact hke
      · exact ih hrest p hp

theorem wfMap_foldl (ts : List TripOption) :
    ∀ (m : List (String × TripOption)), WFMap m → WFMap (ts.foldl upsertMax m) := by
  induction ts with
  | nil => intro m h; simpa using h
  | cons t ts ih =>
    intro m h
    exact ih _ (wfMap_upsert t h)

theorem nodup_keys_upsert {m : List (String × TripOption)} (t : TripOption)
    (h : (keysOf m).Nodup) : (keysOf (upsertMax m t)).Nodup := by
  rw [keysOf_upsert]
  by_cases hmem : tripKey t ∈ keysOf m
  · simpa [hmem] using h
  · simp only [hmem, if_false]
    simpa [List.nodup_append] using ⟨h, fun hx => hmem hx⟩

theorem nodup_keys_foldl (ts : List TripOption) :
    ∀ (m : List (String × TripOption)), (keysOf m).Nodup →
      (keysOf (ts.foldl upsertMax m)).Nodup := by
  induction ts with
  | nil => intro m h; simpa using h
  | cons t ts ih =>
    intro m h
    exact ih _ (nodup_keys_upsert t h)

theorem mem_iff_alookup {m : List (String × TripOption)}
    (hnd : (keysOf m).Nodup) (k : String) (v : TripOption) :
    (k, v) ∈ m ↔ alookup m k = some v := by
  induction m with
  | nil => simp [alookup]
  | cons p rest ih =>
    obtain ⟨k1, v1⟩ := p
    have hnd1 : (keysOf rest).Nodup := (List.nodup_cons.mp hnd).2
    have hk1 : k1 ∉ keysOf rest := (List.nodup_cons.mp hnd).1
    by_cases hk : k1 = k
    · subst hk
      simp only [alookup, if_pos rfl, List.mem_cons]
      constructor
      · rintro (h | h)
        · simp [Prod.ext_iff] at h; simp [h]
        · exact absurd (List.mem_map_of_mem Prod.fst h) hk1
      · intro h
        left
        simp at h
        simp [h]
    · simp only [alookup, if_neg hk, List.mem_cons]
      rw [← ih hnd1]
      constructor
      · rintro (h | h)
        · exact absurd (congrArg Prod.fst h).symm hk
        · exact h
      · intro h; right; exact h

theorem pickSurvivor_some (e : TripOption) (l : List TripOption) :
    pickSurvivor (some e) l = some (l.foldl keepMoreSeats e) := by
  induction l generalizing e with
  | nil => simp [pickSurvivor]
  | cons t r ih => simp [pickSurvivor, ih]

theorem foldl_keepMoreSeats_ge (l : List TripOption) :
    ∀ (e : TripOption), e.availableSeats ≤ (l.foldl keepMoreSeats e).availableSeats := by
  induction l with
  | nil => intro e; simp
  | cons t r ih =>
    intro e
    rw [List.foldl_cons]
    refine le_trans ?_ (ih (keepMoreSeats e t))
    by_cases hs : t.availableSeats > e.availableSeats <;>
      simp [keepMoreSeats, hs]
    exact le_of_lt hs

theorem foldl_keepMoreSeats_spec (l : List TripOption) :
    ∀ (e : TripOption), ∃ pre post,
      e :: l = pre ++ (l.foldl keepMoreSeats e) :: post ∧
      (∀ x ∈ pre, x.availableSeats < (l.foldl keepMoreSeats e).availableSeats) ∧
      (∀ x ∈ post, x.availableSeats ≤ (l.foldl keepMoreSeats e).availableSeats) := by
  induction l with
  | nil =>
    intro e
    exact ⟨[], [], by simp⟩
  | cons t r ih =>
    intro e
    rw [List.foldl_cons]
    by_cases hs : t.availableSeats > e.availableSeats
    · have hkeep : keepMoreSeats e t = t := by simp [keepMoreSeats, hs]
      rw [hkeep]
      obtain ⟨pre, post, hdec, hpre, hpost⟩ := ih t
      refine ⟨e :: pre, post, ?_, ?_, hpost⟩
      · rw [List.cons_append, ← hdec]
      · intro x hx
        rcases List.mem_cons.mp hx with hx | hx
        · subst hx
          exact lt_of_lt_of_le hs (foldl_keepMoreSeats_ge r t)
        · exact hpre x hx
    · have hkeep : keepMoreSeats e t = e := by simp [keepMoreSeats, hs]
      rw [hkeep]
      obtain ⟨pre, post, hdec, hpre, hpost⟩ := ih e
      rcases pre with _ | ⟨p0, pre1⟩
      · -- survivor is `e` itself: insert `t` at the head of post
        rw [List.nil_append] at hdec
        injection hdec with h1 h2
        refine ⟨[], t :: post, ?_, by simp, ?_⟩
        · rw [List.nil_append, ← h1, h2]
        · intro x hx
          rcases List.mem_cons.mp hx with hx | hx
          · subst hx
            rw [← h1]
            exact le_of_not_lt hs
          · exact hpost x hx
      · -- survivor lies in `r`; `e` heads pre, insert `t` right after it
        rw [List.cons_append] at hdec
        injection hdec with h1 h2
        subst h1
        refine ⟨e :: t :: pre1, post, ?_, ?_, hpost⟩
        · rw [List.cons_append, List.cons_append, ← h2]
        · intro x hx
          have hp0lt : e.availableSeats < (r.foldl keepMoreSeats e).availableSeats :=
            hpre e (List.mem_cons_self _ _)
          rcases List.mem_cons.mp hx with hx | hx
          · subst hx; exact hp0lt
          rcases List.mem_cons.mp hx with hx | hx
          · subst hx
            exact lt_of_le_of_lt (le_of_not_lt hs) hp0lt
          · exact hpre x (List.mem_cons_of_mem _ hx)

theorem dedup_mem_iff (ts : List TripOption) (u : TripOption) :
    u ∈ deduplicateTrips ts ↔
      alookup (ts.foldl upsertMax []) (tripKey u) = some u := by
  have hwf : WFMap (ts.foldl upsertMax []) :=
    wfMap_foldl ts [] (by intro p hp; simp at hp)
  have hnd : (keysOf (ts.foldl upsertMax [])).Nodup :=
    nodup_keys_foldl ts [] (by simp [keysOf])
  constructor
  · intro hu
    obtain ⟨p, hp, hpu⟩ := List.mem_map.mp hu
    have hkey : p.1 = tripKey p.2 := hwf p hp
    have : p = (tripKey u, u) := by
      obtain ⟨k, v⟩ := p
      simp only at hpu
      subst hpu
      simpa using hkey
    rw [this] at hp
    exact (mem_iff_alookup hnd _ _).mp hp
  · intro hu
    have hp : (tripKey u, u) ∈ ts.foldl upsertMax [] :=
      (mem_iff_alookup hnd _ _).mpr hu
    exact List.mem_map.mpr ⟨(tripKey u, u), hp, rfl⟩

theorem dedup_survivor {ts : List TripOption} {u : TripOption}
    (h : u ∈ deduplicateTrips ts) :
    ∃ pre post,
      ts.filter (fun t => tripKey t = tripKey u) = pre ++ u :: post ∧
      (∀ x ∈ pre, x.availableSeats < u.availableSeats) ∧
      (∀ x ∈ post, x.availableSeats ≤ u.availableSeats) := by
  have hl := (dedup_mem_iff ts u).mp h
  rw [alookup_foldl_upsert ts [] (tripKey u)] at hl
  simp only [alookup] at hl
  rcases hfil : ts.filter (fun t => tripKey t = tripKey u) with _ | ⟨t0, l⟩
  · rw [hfil] at hl
    simp [pickSurvivor] at hl
  · rw [hfil] at hl
    have : pickSurvivor none (t0 :: l) = some (l.foldl keepMoreSeats t0) := by
      simp only [pickSurvivor]
      exact pickSurvivor_some t0 l
    rw [this] at hl
    obtain ⟨pre, post, hdec, hpre, hpost⟩ := foldl_keepMoreSeats_spec l t0
    have hu : l.foldl keepMoreSeats t0 = u := by injection hl
    rw [hu] at hdec hpre hpost
    exact ⟨pre, post, by rw [← hdec], hpre, hpost⟩

theorem dedup_keys_nodup (ts : List TripOption) :
    ((deduplicateTrips ts).map tripKey).Nodup := by
  have hwf : WFMap (ts.foldl upsertMax []) :=
    wfMap_foldl ts [] (by intro p hp; simp at hp)
  have hnd : (keysOf (ts.foldl upsertMax [])).Nodup :=
    nodup_keys_foldl ts [] (by simp [keysOf])
  have hmap : (deduplicateTrips ts).map tripKey = keysOf (ts.foldl upsertMax []) := by
    unfold deduplicateTrips keysOf
    rw [List.map_map]
    exact List.map_congr_left (fun p hp => (hwf p hp).symm)
  rw [hmap]
  exact hnd

/-- C1 (amended): `deduplicateTrips` keys trips by the joined string
`departureTime-arrivalTime-operator-price.amount` (`tripKey`), which
coincides with keying by the field tuple only when distinct tuples give
distinct joined strings. Per string key: every input key has a survivor,
survivors have pairwise distinct keys, each survivor is an input trip
whose `availableSeats` is greatest among input trips sharing its key, a
later duplicate with strictly greater `availableSeats` replaces the held
one, and on ties the first-seen trip is kept (the survivor is preceded in
its key class only by trips with strictly fewer seats and followed only by
trips with at most as many). -/
theorem deduplicateTrips_spec (ts : List TripOption) :
    (∀ t ∈ ts, ∃ u ∈ deduplicateTrips ts, tripKey u = tripKey t) ∧
    ((deduplicateTrips ts).map tripKey).Nodup ∧
    (∀ u ∈ deduplicateTrips ts, u ∈ ts ∧
      ∀ t ∈ ts, tripKey t = tripKey u → t.availableSeats ≤ u.availableSeats) ∧
    (∀ u ∈ deduplicateTrips ts, ∃ pre post,
      ts.filter (fun t => tripKey t = tripKey u) = pre ++ u :: post ∧
      (∀ x ∈ pre, x.availableSeats < u.availableSeats) ∧
      (∀ x ∈ post, x.availableSeats ≤ u.availableSeats)) := by
  refine ⟨?_, dedup_keys_nodup ts, ?_, fun u hu => dedup_survivor hu⟩
  · intro t ht
    have htf : t ∈ ts.filter (fun x => tripKey x = tripKey t) :=
      List.mem_filter.mpr ⟨ht, by simp⟩
    rcases hfil : ts.filter (fun x => tripKey x = tripKey t) with _ | ⟨t0, l⟩
    · rw [hfil] at htf; simp at htf
    · set u := l.foldl keepMoreSeats t0 with hu
      have halo : alookup (ts.foldl upsertMax []) (tripKey t) = some u := by
        rw [alookup_foldl_upsert ts [] (tripKey t)]
        simp only [alookup, hfil, pickSurvivor]
        exact pickSurvivor_some t0 l
      have hukey : tripKey u = tripKey t := by
        have humem : u ∈ t0 :: l := by
          obtain ⟨pre, post, hdec, -, -⟩ := foldl_keepMoreSeats_spec l t0
          rw [hdec]
          exact List.mem_append.mpr (Or.inr (List.mem_cons_self _ _))
        have : u ∈ ts.filter (fun x => tripKey x = tripKey t) := by
          rw [hfil]; exact humem
        simpa using (List.mem_filter.mp this).2
    -- membership of the survivor in the dedup output
      refine ⟨u, ?_, hukey⟩
      rw [dedup_mem_iff]
      rw [← hukey] at halo
      exact halo
  · intro u hu
    obtain ⟨pre, post, hdec, hpre, hpost⟩ := dedup_survivor hu
    have humem : u ∈ ts.filter (fun t => tripKey t = tripKey u) := by
      rw [hdec]
      exact List.mem_append.mpr (Or.inr (List.mem_cons_self _ _))
    refine ⟨(List.mem_filter.mp humem).1, ?_⟩
    intro t ht htk
    have htf : t ∈ ts.filter (fun x => tripKey x = tripKey u) :=
      List.mem_filter.mpr ⟨ht, by simpa using htk⟩
    rw [hdec] at htf
    rcases List.mem_append.mp htf with hx | hx
    · exact le_of_lt (hpre t hx)
    · rcases List.mem_cons.mp hx with hx | hx
      · rw [hx]
      · exact hpost t hx

/-- First counterexample trip for C1: operator carries a trailing hyphen. -/
def cexDelimA : TripOption :=
  { id := "t1", bookingToken := "b1", departureTime := "08:00",
    arrivalTime := "10:00", departureDate := "2026-01-15",
    arrivalDate := "2026-01-15", duration := 120,
    price := { amount := 450, currency := "THB" },
    operator := "Lomprayah-", operatorLogo := none, vehicleType := .ferry,
    availableSeats := 10, amenities := [], segments := [], redirectUrl := "",
    origin := { id := "A", name := "A", city := "A" },
    destination := { id := "B", name := "B", city := "B" } }

/-- Second counterexample trip for C1: a different (operator, amount) pair
whose joined key string collides with the first trip's. -/
def cexDelimB : TripOption :=
  { cexDelimA with
    id := "t2", operator := "Lomprayah",
    price := { amount := -450, currency := "THB" }, availableSeats := 3 }

/-- C1 counterexample: the dedup key is the hyphen-joined string, not the
field tuple. The two trips differ in `(operator, price.amount)` yet share
the key string, so only one of the two tuple keys occurring in the input
survives `deduplicateTrips` — the claim that exactly one trip per
`(departureTime, arrivalTime, operator, price.amount)` key survives fails. -/
theorem deduplicateTrips_tuple_key_counterexample :
    tripKey cexDelimA = tripKey cexDelimB ∧
    (cexDelimA.operator, cexDelimA.price.amount) ≠
      (cexDelimB.operator, cexDelimB.price.amount) ∧
    deduplicateTrips [cexDelimA, cexDelimB] = [cexDelimA] ∧
    ¬ ∃ u ∈ deduplicateTrips [cexDelimA, cexDelimB],
        u.operator = cexDelimB.operator ∧
        u.price.amount = cexDelimB.price.amount := by
  refine ⟨by decide, by decide, by decide, by decide⟩

theorem upsert_not_mem {m : List (String × TripOption)} {t : TripOption}
    (h : tripKey t ∉ keysOf m) : upsertMax m t = m ++ [(tripKey t, t)] := by
  induction m with
  | nil => simp [upsertMax]
  | cons p rest ih =>
    obtain ⟨k, e⟩ := p
    have hk : ¬ k = tripKey t := by
      intro hk
      exact h (by simp [keysOf, hk])
    have hrest : tripKey t ∉ keysOf rest := by
      intro hmem
      exact h (by simp [keysOf]; right; simpa [keysOf] using hmem)
    simp [upsertMax, hk, ih hrest]

theorem foldl_upsert_fresh (ts : List TripOption) :
    ∀ (m : List (String × TripOption)),
      (∀ t ∈ ts, tripKey t ∉ keysOf m) → (ts.map tripKey).Nodup →
      ts.foldl upsertMax m = m ++ ts.map (fun t => (tripKey t, t)) := by
  induction ts with
  | nil => intro m _ _; simp
  | cons t ts ih =>
    intro m hfresh hnd
    rw [List.foldl_cons, upsert_not_mem (hfresh t (List.mem_cons_self _ _))]
    have hnd1 : (ts.map tripKey).Nodup := (List.nodup_cons.mp (by simpa using hnd)).2
    have hhd : tripKey t ∉ ts.map tripKey := (List.nodup_cons.mp (by simpa using hnd)).1
    rw [ih (m ++ [(tripKey t, t)]) ?_ hnd1]
    · simp
    · intro x hx
      simp only [keysOf, List.map_append, List.mem_append]
      rintro (hmx | hmx)
      · exact hfresh x (List.mem_cons_of_mem _ hx) (by simpa [keysOf] using hmx)
      · simp at hmx
        exact hhd (hmx ▸ List.mem_map_of_mem tripKey hx)

theorem dedup_of_nodup_keys {ts : List TripOption}
    (h : (ts.map tripKey).Nodup) : deduplicateTrips ts = ts := by
  unfold deduplicateTrips
  rw [foldl_upsert_fresh ts [] (by intro t _ hmem; simp [keysOf] at hmem) h]
  simp [Function.comp_def]

/-- C7: `deduplicateTrips` is idempotent — its output has pairwise distinct
dedup keys, and on any key-distinct list it is the identity. -/
theorem deduplicateTrips_idempotent (ts : List TripOption) :
    deduplicateTrips (deduplicateTrips ts) = deduplicateTrips ts :=
  dedup_of_nodup_keys (dedup_keys_nodup ts)

/-- Character-list version of JS `String.prototype.startsWith`. -/
def listStarts : List Char → List Char → Bool
  | [], _ => true
  | _ :: _, [] => false
  | a :: pa, b :: lb => a = b && listStarts pa lb

/-- Character-list version of JS `String.prototype.includes`. -/
def listContains (hay needle : List Char) : Bool :=
  match hay with
  | [] => needle.isEmpty
  | _ :: rest => listStarts needle hay || listContains rest needle

/-- JS `s.includes(sub)` on strings. -/
def strIncludes (s sub : String) : Bool :=
  listContains s.toList sub.toList

/-- Lexicographic strict order on character lists, the order JS string
comparison (`localeCompare` on the ASCII machine-generated strings of
this code) induces; implemented structurally so that concrete proofs can
evaluate it, and shown equal to `List.lt` by `listLexLtB_iff`. -/
def listLexLtB : List Char → List Char → Bool
  | [], [] => false
  | [], _ :: _ => true
  | _ :: _, [] => false
  | a :: as, b :: bs => if a < b then true else if b < a then false else listLexLtB as bs

theorem listLexLtB_iff (as : List Char) :
    ∀ bs : List Char, listLexLtB as bs = true ↔ List.Lex (fun a b => a < b) as bs := by
  induction as with
  | nil =>
    intro bs
    cases bs with
    | nil => exact iff_of_false (by simp [listLexLtB]) (fun h => nomatch h)
    | cons b bs => exact iff_of_true (by simp [listLexLtB]) List.Lex.nil
  | cons a as ih =>
    intro bs
    cases bs with
    | nil => exact iff_of_false (by simp [listLexLtB]) (fun h => nomatch h)
    | cons b bs =>
      by_cases h1 : a < b
      · exact iff_of_true (by simp [listLexLtB, h1]) (List.Lex.rel h1)
      · by_cases h2 : b < a
        · refine iff_of_false (by simp [listLexLtB, h1, h2]) ?_
          intro h
          cases h with
          | cons htl => exact absurd h2 (lt_irrefl _)
          | rel hr => exact h1 hr
        · have heq : a = b := le_antisymm (le_of_not_lt h2) (le_of_not_lt h1)
          subst heq
          constructor
          · intro h
            exact List.Lex.cons ((ih bs).mp (by simpa [listLexLtB, lt_irrefl] using h))
          · intro h
            cases h with
            | cons htl => simpa [listLexLtB, lt_irrefl] using (ih bs).mpr htl
            | rel hr => exact absurd hr (lt_irrefl _)

/-- Kernel-evaluable JS string strict comparison. -/
def strLtB (s t : String) : Bool :=
  listLexLtB s.toList t.toList

theorem strLtB_iff (s t : String) : strLtB s t = true ↔ s < t := by
  rw [String.lt_iff_toList_lt]
  exact listLexLtB_iff s.toList t.toList

/-- Kernel-evaluable JS string non-strict comparison. -/
def strLeB (s t : String) : Bool :=
  !(strLtB t s)

theorem strLeB_iff (s t : String) : strLeB s t = true ↔ s ≤ t := by
  unfold strLeB
  cases hb : strLtB t s with
  | false =>
    simp only [Bool.not_false]
    refine iff_of_true (by trivial) ?_
    have : ¬ t < s := fun hlt => by
      rw [← strLtB_iff] at hlt
      rw [hlt] at hb
      exact Bool.noConfusion hb
    exact le_of_not_lt this
  | true =>
    simp only [Bool.not_true]
    refine iff_of_false (fun h => Bool.noConfusion h) ?_
    exact not_le_of_lt ((strLtB_iff t s).mp hb)

/-- Value of a digit run, as JS `parseInt` computes it on an all-digit
string (bignum precision is not modelled; the upstream sends small
hour/minute counts). -/
def digitsVal (ds : List Char) : Nat :=
  ds.foldl (fun acc c => acc * 10 + (c.toNat - '0'.toNat)) 0

/-- Scan for the first occurrence of the literal `PT` and return the
remaining characters, the anchor point of the duration regex
`/PT(?:(\d+)H)?(?:(\d+)M)?/` of `parseDuration` in `tc-api-client.ts`. -/
def afterPT : List Char → Option (List Char)
  | 'P' :: 'T' :: rest => some rest
  | _ :: rest => afterPT rest
  | [] => none

/-- `parseDuration` from `tc-api-client.ts`: parse an ISO-8601 duration of
shape `PTnHnM` (both parts optional) into minutes, by the semantics of the
regex `/PT(?:(\d+)H)?(?:(\d+)M)?/` — a digit run not followed by `H` is
re-read by the minute group, and a missing match yields 0. -/
def parseDuration (s : String) : Nat :=
  match afterPT s.toList with
  | none => 0
  | some rest =>
    let hd := rest.span Char.isDigit
    let hoursStep : Nat × List Char :=
      match hd.2 with
      | 'H' :: r2 => if hd.1.isEmpty then (0, rest) else (digitsVal hd.1, r2)
      | _ => (0, rest)
    let md := hoursStep.2.span Char.isDigit
    match md.2 with
    | 'M' :: _ =>
      if md.1.isEmpty then hoursStep.1 * 60 else hoursStep.1 * 60 + digitsVal md.1
    | _ => hoursStep.1 * 60

/-- JS `String.prototype.toLowerCase`, structurally (ASCII inputs). -/
def strLower (s : String) : String :=
  String.mk (s.toList.map Char.toLower)

/-- `mapVehicleType` from `tc-api-client.ts`: ferry/boat/catamaran beats
train/rail beats the bus default, each by case-insensitive substring test
over the transportation-type tag list. -/
def mapVehicleType (transportationTypes : List String) : VehicleType :=
  let types := transportationTypes.map strLower
  if types.any (fun t =>
      strIncludes t "ferry" || strIncludes t "boat" || strIncludes t "catamaran") then
    .ferry
  else if types.any (fun t => strIncludes t "train" || strIncludes t "rail") then
    .train
  else
    .bus

/-- Split a character list on a separator character, the semantics of JS
`String.prototype.split` with a one-character separator (implemented
structurally so that proofs can evaluate it; `String.splitOn` is
well-founded-recursive and does not reduce in the kernel). -/
def splitOnChar (sep : Char) : List Char → List (List Char)
  | [] => [[]]
  | c :: rest =>
    let r := splitOnChar sep rest
    if c = sep then [] :: r
    else
      match r with
      | [] => [[c]]
      | h :: t => (c :: h) :: t

/-- String wrapper for `splitOnChar`. -/
def strSplitChar (sep : Char) (s : String) : List String :=
  (splitOnChar sep s.toList).map String.mk

/-- `extractTime` from `tc-api-client.ts`: the `HH:MM` part after the `T`
of an ISO datetime, or `00:00` when there is none (or it is empty). -/
def extractTime (isoDateTime : String) : String :=
  match strSplitChar 'T' isoDateTime with
  | _ :: timePart :: _ =>
    if timePart = "" then "00:00" else String.mk (timePart.toList.take 5)
  | _ => "00:00"

/-- `extractDate` from `tc-api-client.ts`: the part before the first `T`. -/
def extractDate (isoDateTime : String) : String :=
  match strSplitChar 'T' isoDateTime with
  | datePart :: _ => datePart
  | [] => ""

/-- `parseStationName` from `tc-api-client.ts` is an identity placeholder. -/
def parseStationName (stationId : String) : String :=
  stationId

/-- A vehicle record of the TC itineraries response (`TCVehicle`). -/
structure TCVehicle where
  id : String
  name : String
  operating_carrier_id : String
  operating_carrier_name : String
  image_url : Option String
deriving DecidableEq, Repr

/-- A segment record of the TC itineraries response (`TCSegment`). -/
structure TCSegment where
  id : String
  from_station : String
  to_station : String
  departure_time : String
  arrival_time : String
  travel_duration : String
  vehicle_id : String
  operating_carrier_id : String
  operating_carrier_name : Option String
  seat_class_id : String
  transportation_types : List String
deriving DecidableEq, Repr

/-- A price of the TC response (`TCPrice`); the JSON `amount` is a decimal
string, modelled by the rational value `parseFloat` reads from it. -/
structure TCPrice where
  currency : String
  amount : Rat
deriving DecidableEq, Repr

/-- The pricing block of a TC itinerary. -/
structure TCPricing where
  gross_price : TCPrice
  net_price : TCPrice
deriving DecidableEq, Repr

/-- An itinerary record of the TC response (`TCItinerary`); fields the
parser never reads (`connection_guaranteed`, `confirmation_type`,
`ticket_type`, `cancellation_policies`) are omitted. -/
structure TCItinerary where
  id : String
  departure_segments : List String
  number_of_available_seats : Int
  pricing : TCPricing
deriving DecidableEq, Repr

/-- The TC itineraries response: parallel arrays (`TCApiResponse`). -/
structure TCApiResponse where
  vehicles : List TCVehicle
  segments : List TCSegment
  itineraries : List TCItinerary
deriving DecidableEq, Repr

/-- The vehicle lookup `Map` of `parseItinerariesResponse`; built by
insertion, so a duplicated id resolves to the last occurrence. -/
def vehicleLookup (vs : List TCVehicle) (k : String) : Option TCVehicle :=
  (vs.filter (fun v => v.id = k)).getLast?

/-- The segment lookup `Map` of `parseItinerariesResponse`. -/
def segmentLookup (ss : List TCSegment) (k : String) : Option TCSegment :=
  (ss.filter (fun s => s.id = k)).getLast?

/-- JS `o?.f || fallback` on an optional string field: the fallback is
used when the object is missing or the field is empty. -/
def jsStrOr (o : Option String) (fallback : String) : String :=
  match o with
  | some s => if s = "" then fallback else s
  | none => fallback

/-- The order induced by the final sort comparator of
`parseItinerariesResponse`: `departureTime.localeCompare`, then price as
tiebreak. JS `sort` is stable and is modelled by `List.insertionSort`,
which is likewise stable and produces the same (unique) stably sorted
permutation. -/
def tripLexLe (a b : TripOption) : Prop :=
  a.departureTime < b.departureTime ∨
    (a.departureTime = b.departureTime ∧ a.price.amount ≤ b.price.amount)

instance : DecidableRel tripLexLe := fun a b =>
  decidable_of_iff
    ((strLtB a.departureTime b.departureTime ||
      (a.departureTime == b.departureTime &&
        decide (a.price.amount ≤ b.price.amount))) = true)
    (by simp [tripLexLe, Bool.or_eq_true, Bool.and_eq_true, strLtB_iff])

instance : IsTrans TripOption tripLexLe := by
  constructor
  intro a b c hab hbc
  rcases hab with hab | ⟨hab, hab2⟩ <;> rcases hbc with hbc | ⟨hbc, hbc2⟩
  · exact Or.inl (lt_trans hab hbc)
  · exact Or.inl (hbc ▸ hab)
  · exact Or.inl (hab ▸ hbc)
  · exact Or.inr ⟨hab.trans hbc, le_trans hab2 hbc2⟩

instance : IsTotal TripOption tripLexLe := by
  constructor
  intro a b
  rcases lt_trichotomy a.departureTime b.departureTime with h | h | h
  · exact Or.inl (Or.inl h)
  · rcases le_total a.price.amount b.price.amount with hp | hp
    · exact Or.inl (Or.inr ⟨h, hp⟩)
    · exact Or.inr (Or.inr ⟨h.symm, hp⟩)
  · exact Or.inr (Or.inl h)

/-- The trip a single TC itinerary normalizes to, or `none` when none of
its segment ids resolve (the `continue`). -/
def tcTripOfItinerary (data : TCApiResponse) (departurePoi arrivalPoi : String)
    (itin : TCItinerary) : Option TripOption :=
  let itinSegs := itin.departure_segments.filterMap (segmentLookup data.segments)
  match itinSegs with
  | [] => none
  | firstSeg :: restSegs =>
    let lastSeg := (firstSeg :: restSegs).getLastD firstSeg
    let vehicle := vehicleLookup data.vehicles firstSeg.vehicle_id
    let operatorName :=
      jsStrOr (vehicle.map (·.operating_carrier_name)) firstSeg.operating_carrier_id
    let totalDuration :=
      (firstSeg :: restSegs).foldl (fun sum seg => sum + parseDuration seg.travel_duration) 0
    let tripSegments : List TripSegment :=
      (firstSeg :: restSegs).map (fun seg =>
        let segVehicle := vehicleLookup data.vehicles seg.vehicle_id
        { origin := { id := seg.from_station,
                      name := parseStationName seg.from_station,
                      city := departurePoi },
          destination := { id := seg.to_station,
                           name := parseStationName seg.to_station,
                           city := arrivalPoi },
          departureTime := extractTime seg.departure_time,
          arrivalTime := extractTime seg.arrival_time,
          vehicleType := mapVehicleType seg.transportation_types,
          operator := jsStrOr (segVehicle.map (·.operating_carrier_name))
                        seg.operating_carrier_id })
    some
      { id := itin.id,
        bookingToken := itin.id,
        departureTime := extractTime firstSeg.departure_time,
        arrivalTime := extractTime lastSeg.arrival_time,
        departureDate := extractDate firstSeg.departure_time,
        arrivalDate := extractDate lastSeg.arrival_time,
        duration := (totalDuration : Int),
        price := { amount := itin.pricing.gross_price.amount,
                   currency := itin.pricing.gross_price.currency },
        operator := operatorName,
        operatorLogo := vehicle.bind (·.image_url),
        vehicleType := mapVehicleType firstSeg.transportation_types,
        availableSeats := itin.number_of_available_seats,
        amenities := [],
        segments := tripSegments,
        redirectUrl := "",
        origin := { id := firstSeg.from_station,
                    name := parseStationName firstSeg.from_station,
                    city := departurePoi },
        destination := { id := lastSeg.to_station,
                         name := parseStationName lastSeg.to_station,
                         city := arrivalPoi } }

/-- `parseItinerariesResponse` from `tc-api-client.ts`: normalize every
resolvable itinerary, then sort by departure time with price tiebreak. -/
def parseItinerariesResponse (data : TCApiResponse)
    (departurePoi arrivalPoi : String) : List TripOption :=
  List.insertionSort tripLexLe
    (data.itineraries.filterMap (tcTripOfItinerary data departurePoi arrivalPoi))

theorem parseItinerariesResponse_sorted (data : TCApiResponse)
    (departurePoi arrivalPoi : String) :
    (parseItinerariesResponse data departurePoi arrivalPoi).Pairwise tripLexLe :=
  List.sorted_insertionSort tripLexLe
    (data.itineraries.filterMap (tcTripOfItinerary data departurePoi arrivalPoi))

/-- Hinnant civil-calendar day number (days since 1970-01-01) of a
(year, month, day) triple; this is the date arithmetic JS `Date` performs
on well-formed `YYYY-MM-DDTHH:MM:SS` strings (DST does not apply to the
Z-less forms compared here, which shift by whole days). -/
def daysFromCivil (y m d : Int) : Int :=
  let y2 := if m ≤ 2 then y - 1 else y
  let era := (if 0 ≤ y2 then y2 else y2 - 399) / 400
  let yoe := y2 - era * 400
  let mp := (m + 9) % 12
  let doy := (153 * mp + 2) / 5 + d - 1
  let doe := yoe * 365 + yoe / 4 - yoe / 100 + doy
  era * 146097 + doe - 719468

/-- Numeric value of an all-digit character list, `none` otherwise. -/
def digitsToNatQ (cs : List Char) : Option Nat :=
  if cs ≠ [] ∧ cs.all Char.isDigit then some (digitsVal cs) else none

/-- Components of a `YYYY-MM-DD` string (0 on a malformed component,
matching only the well-formed strings the code produces). -/
def parseDateYMD (s : String) : Int × Int × Int :=
  match splitOnChar '-' s.toList with
  | [ys, ms, ds] =>
    (((digitsToNatQ ys).getD 0 : Int), ((digitsToNatQ ms).getD 0 : Int),
      ((digitsToNatQ ds).getD 0 : Int))
  | _ => (0, 0, 0)

/-- Components of an `HH:MM` string. -/
def parseTimeHM (s : String) : Int × Int :=
  match splitOnChar ':' s.toList with
  | [hs, ms] => (((digitsToNatQ hs).getD 0 : Int), ((digitsToNatQ ms).getD 0 : Int))
  | _ => (0, 0)

/-- Minute timestamp of a (`YYYY-MM-DD`, `HH:MM`) string pair, the value
`new Date(date + "T" + time + ":00").getTime() / 60000` denotes. -/
def dateTimeMinutes (date time : String) : Int :=
  let ymd := parseDateYMD date
  let hm := parseTimeHM time
  daysFromCivil ymd.1 ymd.2.1 ymd.2.2 * 1440 + hm.1 * 60 + hm.2

/-- `calculateDuration` from the legacy client: the difference of the two
re-parsed datetimes in minutes (`Math.round` is exact here because both
times carry `:00` seconds). -/
def calculateDuration (departureTime arrivalTime departureDate arrivalDate : String) : Int :=
  dateTimeMinutes arrivalDate arrivalTime - dateTimeMinutes departureDate departureTime

example : dateTimeMinutes "2026-01-16" "00:00" - dateTimeMinutes "2026-01-15" "23:00" = 60 := by decide
example : dateTimeMinutes "2024-03-01" "00:00" - dateTimeMinutes "2024-02-28" "00:00" = 2880 := by decide
example : dateTimeMinutes "2025-03-01" "00:00" - dateTimeMinutes "2025-02-28" "00:00" = 1440 := by decide
example : parseDuration "PT3H30M" = 210 := by decide
example : parseDuration "PT30M" = 30 := by decide
example : parseDuration "PT3H" = 180 := by decide
example : parseDuration "nope" = 0 := by decide

/-- A station of the bundled directory (`Station` in `src/types/index.ts`). -/
structure Station where
  id : String
  name : String
  city : String
  province : String
  country : String
  lat : Rat
  lon : Rat
  company : String
deriving DecidableEq, Repr

/-- The two legacy providers (`API_ENDPOINTS` keys `p10` and `12go`). -/
inductive Company where
  | p10
  | twelveGo
deriving DecidableEq, Repr

/-- The provider redirect endpoint (`REDIRECT_ENDPOINTS`). -/
def redirectEndpointOf : Company → String
  | .p10 => "https://google-integration-redirect.travelier.com/v1/redirect/Plataforma10"
  | .twelveGo => "https://google-integration-redirect.travelier.com/v1/redirect/OneTwoGo"

/-- A google-style civil date `{year, month, day}` of the legacy payload. -/
structure GDate where
  year : Int
  month : Int
  day : Int
deriving DecidableEq, Repr

/-- A google-style civil datetime of the legacy payload; `boarding_time`
and `arrival_time` carry both date and time components (`formatTime`
reads hours/minutes, `formatDate` reads year/month/day of the same
object). Components the JSON omits are modelled as their JS `|| 0` /
`|| 1` defaulted values. -/
structure GDateTime where
  year : Int
  month : Int
  day : Int
  hours : Int
  minutes : Int
deriving DecidableEq, Repr

/-- Date view of a `GDateTime`. -/
def GDateTime.toDate (t : GDateTime) : GDate :=
  { year := t.year, month := t.month, day := t.day }

/-- JS `String(n).padStart(2, "0")`. -/
def padStart2 (s : String) : String :=
  if s.length ≥ 2 then s else String.mk (List.replicate (2 - s.length) '0') ++ s

/-- `formatTime` from the legacy client: `HH:MM` from an optional time
object, `00:00` when absent (`hours || 0`, `minutes || 0`). -/
def formatTime (o : Option GDateTime) : String :=
  match o with
  | none => "00:00"
  | some t => padStart2 (toString t.hours) ++ ":" ++ padStart2 (toString t.minutes)

/-- `formatDate` from the legacy client: `YYYY-MM-DD` from an optional
date object, `0000-00-00` when absent (`month || 1`, `day || 1`). -/
def formatDateG (o : Option GDate) : String :=
  match o with
  | none => "0000-00-00"
  | some d =>
    toString d.year ++ "-" ++
      padStart2 (toString (if d.month = 0 then 1 else d.month)) ++ "-" ++
      padStart2 (toString (if d.day = 0 then 1 else d.day))

/-- A `{units, nanos, currency_code}` money amount of the legacy payload
(`units` is a numeric string; its `parseFloat` value is modelled). -/
structure GAmount where
  units : Int
  nanos : Int
  currency_code : Option String
deriving DecidableEq, Repr

/-- `calculatePrice` from the legacy client: `units + nanos / 1e9`,
written over the common denominator `1e9` so that concrete proofs can
evaluate it (`Rat.add` does not reduce in the kernel);
`calculatePrice_eq_add` shows it equals the source expression. -/
def calculatePrice : Option GAmount → Rat
  | none => 0
  | some a => mkRat (a.units * 1000000000 + a.nanos) 1000000000

theorem calculatePrice_eq_add (a : GAmount) :
    calculatePrice (some a) = (a.units : Rat) + (a.nanos : Rat) / 1000000000 := by
  show mkRat (a.units * 1000000000 + a.nanos) 1000000000 = _
  rw [Rat.mkRat_eq_div]
  push_cast
  ring

/-- Innermost availability record of a legacy trip option. -/
structure GAvailable where
  available_seat_count : Int
deriving DecidableEq, Repr

/-- Availability wrapper of a legacy trip option. -/
structure GAvailability where
  available : Option GAvailable
deriving DecidableEq, Repr

/-- The fare wrapper `lowest_standard_fare` of a legacy trip option. -/
structure GFare where
  total_amount : Option GAmount
deriving DecidableEq, Repr

/-- A legacy `trip_option`. -/
structure GTripOption where
  booking_token : String
  lowest_standard_fare : Option GFare
  availability : Option GAvailability
  operator_name : Option String
deriving DecidableEq, Repr

/-- A legacy `segment_key` with boarding/arrival datetimes and the
service date. -/
structure GSegmentKey where
  boarding_time : Option GDateTime
  arrival_time : Option GDateTime
  service_date : Option GDate
deriving DecidableEq, Repr

/-- A legacy `itinerary` (only its `segment_keys` are read). -/
structure GItinerary where
  segment_keys : List GSegmentKey
deriving DecidableEq, Repr

/-- A legacy `trip_option_set`. -/
structure GTripOptionSet where
  trip_options : List GTripOption
deriving DecidableEq, Repr

/-- A legacy `itinerary_response`. -/
structure GItineraryResponse where
  itinerary : Option GItinerary
  trip_option_set : Option GTripOptionSet
deriving DecidableEq, Repr

/-- The legacy bulk search result wrapper. -/
structure GBulkResult where
  itinerary_responses : List GItineraryResponse
deriving DecidableEq, Repr

/-- The legacy response root. -/
structure GResponse where
  bulk_trip_options_result : Option GBulkResult
deriving DecidableEq, Repr

/-- Hex digit character for percent encoding. -/
def hexDigit (n : Nat) : Char :=
  if n < 10 then Char.ofNat ('0'.toNat + n) else Char.ofNat ('A'.toNat + n - 10)

/-- One character of `URLSearchParams` form encoding (ASCII model):
alphanumerics and `*-._` pass, space becomes `+`, the rest `%XX`. -/
def percentEncodeChar (c : Char) : List Char :=
  if c.isAlphanum || c = '*' || c = '-' || c = '.' || c = '_' then [c]
  else if c = ' ' then ['+']
  else ['%', hexDigit (c.toNat / 16 % 16), hexDigit (c.toNat % 16)]

/-- `URLSearchParams` value encoding. -/
def formUrlEncode (s : String) : String :=
  String.mk (s.toList.map percentEncodeChar).join

/-- JSON escaping of one character (quote and backslash; the encoded
values are machine-generated and carry no control characters). -/
def jsonEscapeChar (c : Char) : List Char :=
  if c = '"' then ['\\', '"'] else if c = '\\' then ['\\', '\\'] else [c]

/-- `JSON.stringify([s])` for a string `s`: the provider quirk wrapping
every redirect parameter except the booking token in a one-element array. -/
def jsonArray1 (s : String) : String :=
  "[\"" ++ String.mk (s.toList.map jsonEscapeChar).join ++ "\"]"

/-- `generateRedirectUrl` from the legacy client. -/
def generateRedirectUrl (bookingToken : String) (company : Company)
    (origin destination serviceDate boardingTime arrivalTime : String) : String :=
  let redirectBase := redirectEndpointOf company
  let serviceDateCompact := String.mk (serviceDate.toList.filter (fun c => c ≠ '-'))
  let boardingTimeISO := serviceDate ++ "T" ++ boardingTime ++ ":00+00:00"
  let arrivalTimeISO := serviceDate ++ "T" ++ arrivalTime ++ ":00+00:00"
  redirectBase ++ "?" ++
    "booking_token=" ++ formUrlEncode bookingToken ++
    "&from_ticketing_stop_time_id=" ++ formUrlEncode (jsonArray1 origin) ++
    "&to_ticketing_stop_time_id=" ++ formUrlEncode (jsonArray1 destination) ++
    "&service_date=" ++ formUrlEncode (jsonArray1 serviceDateCompact) ++
    "&boarding_time=" ++ formUrlEncode (jsonArray1 boardingTimeISO) ++
    "&arrival_time=" ++ formUrlEncode (jsonArray1 arrivalTimeISO)

/-- JS `s.slice(-8)`: the last eight characters (the whole string when
shorter). -/
def sliceLast8 (s : String) : String :=
  String.mk (s.toList.drop (s.length - 8))

/-- `inferVehicleType` from the legacy client: operator-name substring
heuristics only. -/
def inferVehicleType (operatorName : String) : VehicleType :=
  let n := strLower operatorName
  if strIncludes n "ferry" || strIncludes n "boat" || strIncludes n "catamaran" then
    .ferry
  else if strIncludes n "train" || strIncludes n "rail" then
    .train
  else
    .bus

/-- The body of the per-`trip_option` loop of `parseApiResponse`: `none`
models the `continue` on a non-positive computed price. -/
def legacyTripOf (origin destination : String) (company : Company)
    (dir : String → Option Station)
    (boarding arrival : Option GDateTime) (serviceDate : Option GDate)
    (opt : GTripOption) : Option TripOption :=
  let price := calculatePrice (opt.lowest_standard_fare.bind (·.total_amount))
  if price ≤ 0 then none
  else
    let bookingToken := opt.booking_token
    let currency :=
      jsStrOr ((opt.lowest_standard_fare.bind (·.total_amount)).bind (·.currency_code)) "THB"
    let availableSeats : Int :=
      match (opt.availability.bind (·.available)) with
      | some a => a.available_seat_count
      | none => 0
    let departureTime := formatTime boarding
    let arrivalTime := formatTime arrival
    let departureDate := formatDateG serviceDate
    let arrivalDate := formatDateG (arrival.map GDateTime.toDate)
    let originStation := dir origin
    let destStation := dir destination
    let operatorName := jsStrOr opt.operator_name "12Go Asia"
    some
      { id := origin ++ "-" ++ destination ++ "-" ++ departureTime ++ "-" ++
          sliceLast8 bookingToken,
        bookingToken := bookingToken,
        departureTime := departureTime,
        arrivalTime := arrivalTime,
        departureDate := departureDate,
        arrivalDate := arrivalDate,
        duration := calculateDuration departureTime arrivalTime departureDate arrivalDate,
        price := { amount := price, currency := currency },
        operator := operatorName,
        operatorLogo := none,
        vehicleType := inferVehicleType operatorName,
        availableSeats := availableSeats,
        amenities := [],
        segments :=
          [{ origin := { id := origin,
                         name := (originStation.map (·.name)).getD origin,
                         city := (originStation.map (·.city)).getD "" },
             destination := { id := destination,
                              name := (destStation.map (·.name)).getD destination,
                              city := (destStation.map (·.city)).getD "" },
             departureTime := departureTime,
             arrivalTime := arrivalTime,
             vehicleType := inferVehicleType operatorName,
             operator := operatorName }],
        redirectUrl := generateRedirectUrl bookingToken company origin destination
          departureDate departureTime arrivalTime,
        origin := { id := origin,
                    name := (originStation.map (·.name)).getD origin,
                    city := (originStation.map (·.city)).getD "" },
        destination := { id := destination,
                         name := (destStation.map (·.name)).getD destination,
                         city := (destStation.map (·.city)).getD "" } }

/-- The body of the per-`itinerary_response` loop of `parseApiResponse`:
the `continue` on a missing first segment key yields no trips. -/
def legacyTripsOfResponse (origin destination : String) (company : Company)
    (dir : String → Option Station) (ir : GItineraryResponse) : List TripOption :=
  match ir.itinerary with
  | none => []
  | some itin =>
    match itin.segment_keys with
    | [] => []
    | segmentKey :: _ =>
      (match ir.trip_option_set with
       | some s => s.trip_options
       | none => []).filterMap
        (legacyTripOf origin destination company dir segmentKey.boarding_time
          segmentKey.arrival_time segmentKey.service_date)

/-- The stable order of the final sort of `parseApiResponse`: departure
time only (`localeCompare`), no tiebreak. -/
def tripDepLe (a b : TripOption) : Prop :=
  a.departureTime ≤ b.departureTime

instance : DecidableRel tripDepLe := fun a b =>
  decidable_of_iff (strLeB a.departureTime b.departureTime = true)
    (strLeB_iff a.departureTime b.departureTime)

instance : IsTrans TripOption tripDepLe :=
  ⟨fun _ _ _ hab hbc => le_trans hab hbc⟩

instance : IsTotal TripOption tripDepLe :=
  ⟨fun a b => le_total a.departureTime b.departureTime⟩

/-- `parseApiResponse` from the legacy mTLS client: normalize each
priced trip option under its itinerary's first segment key, then sort by
departure time. The `date` parameter is carried but, as in the source,
unread. -/
def parseApiResponse (response : GResponse) (origin destination date : String)
    (company : Company) (dir : String → Option Station) : List TripOption :=
  List.insertionSort tripDepLe
    ((match response.bulk_trip_options_result with
      | some b => b.itinerary_responses
      | none => []).map
        (legacyTripsOfResponse origin destination company dir)).join

theorem mem_parseItinerariesResponse {data : TCApiResponse} {dep arr : String}
    {t : TripOption} (h : t ∈ parseItinerariesResponse data dep arr) :
    ∃ itin ∈ data.itineraries, tcTripOfItinerary data dep arr itin = some t := by
  unfold parseItinerariesResponse at h
  rw [(List.perm_insertionSort _ _).mem_iff] at h
  exact List.mem_filterMap.mp h

theorem tcTripOfItinerary_shape {data : TCApiResponse} {dep arr : String}
    {itin : TCItinerary} {t : TripOption}
    (h : tcTripOfItinerary data dep arr itin = some t) :
    t.segments ≠ [] ∧ 0 ≤ t.duration := by
  rcases hsegs : itin.departure_segments.filterMap (segmentLookup data.segments)
    with _ | ⟨f, rest⟩
  · simp only [tcTripOfItinerary, hsegs] at h
    exact Option.noConfusion h
  · simp only [tcTripOfItinerary, hsegs, Option.some.injEq] at h
    subst h
    exact ⟨by simp, Int.natCast_nonneg _⟩

theorem parseApiResponse_sorted (resp : GResponse) (origin destination date : String)
    (co : Company) (dir : String → Option Station) :
    (parseApiResponse resp origin destination date co dir).Pairwise tripDepLe :=
  List.sorted_insertionSort tripDepLe _

theorem mem_parseApiResponse {resp : GResponse} {origin destination date : String}
    {co : Company} {dir : String → Option Station} {t : TripOption}
    (h : t ∈ parseApiResponse resp origin destination date co dir) :
    ∃ boarding arrival serviceDate opt,
      legacyTripOf origin destination co dir boarding arrival serviceDate opt = some t := by
  unfold parseApiResponse at h
  rw [(List.perm_insertionSort _ _).mem_iff, List.mem_flatten] at h
  obtain ⟨l, hl, htl⟩ := h
  rw [List.mem_map] at hl
  obtain ⟨ir, hir, rfl⟩ := hl
  obtain ⟨oi, os⟩ := ir
  cases oi with
  | none => simp [legacyTripsOfResponse] at htl
  | some itin =>
    cases hsk : itin.segment_keys with
    | nil => simp [legacyTripsOfResponse, hsk] at htl
    | cons sk rest =>
      cases os with
      | none => simp [legacyTripsOfResponse, hsk] at htl
      | some s =>
        simp only [legacyTripsOfResponse, hsk] at htl
        rw [List.mem_filterMap] at htl
        obtain ⟨opt, hopt, heq⟩ := htl
        exact ⟨sk.boarding_time, sk.arrival_time, sk.service_date, opt, heq⟩

theorem legacyTripOf_shape {origin destination : String} {co : Company}
    {dir : String → Option Station} {boarding arrival : Option GDateTime}
    {serviceDate : Option GDate} {opt : GTripOption} {t : TripOption}
    (h : legacyTripOf origin destination co dir boarding arrival serviceDate opt = some t) :
    t.duration = dateTimeMinutes t.arrivalDate t.arrivalTime -
      dateTimeMinutes t.departureDate t.departureTime ∧
    ∃ s : TripSegment, t.segments = [s] ∧
      s.departureTime = t.departureTime ∧ s.arrivalTime = t.arrivalTime ∧
      s.operator = t.operator ∧ s.vehicleType = t.vehicleType := by
  by_cases hp : calculatePrice (opt.lowest_standard_fare.bind (fun f => f.total_amount)) ≤ 0
  · simp only [legacyTripOf, hp, if_true] at h
    exact Option.noConfusion h
  · simp only [legacyTripOf, hp, if_false] at h
    rw [Option.some.injEq] at h
    subst h
    exact ⟨rfl, _, rfl, rfl, rfl, rfl, rfl⟩

/-- C2 (amended): the POI-keyed adapter `parseItinerariesResponse` returns
its trips sorted by departure time ascending with price ascending as
tiebreak; the legacy station-keyed adapter `parseApiResponse` sorts by
departure time ascending only — equal departure times stay in upstream
order, with no price tiebreak. -/
theorem adapters_sorted_amended :
    (∀ (data : TCApiResponse) (departurePoi arrivalPoi : String),
      (parseItinerariesResponse data departurePoi arrivalPoi).Pairwise tripLexLe) ∧
    (∀ (resp : GResponse) (origin destination date : String) (co : Company)
      (dir : String → Option Station),
      (parseApiResponse resp origin destination date co dir).Pairwise tripDepLe) :=
  ⟨parseItinerariesResponse_sorted, parseApiResponse_sorted⟩

/-- First legacy trip option of the stable-order counterexample: price 10. -/
def cexOptTen : GTripOption :=
  { booking_token := "tokenAAAAAAA",
    lowest_standard_fare :=
      some { total_amount := some { units := 10, nanos := 0, currency_code := some "THB" } },
    availability := some { available := some { available_seat_count := 5 } },
    operator_name := some "Sombat Tour" }

/-- Second legacy trip option of the stable-order counterexample: price 5,
same boarding time. -/
def cexOptFive : GTripOption :=
  { booking_token := "tokenBBBBBBB",
    lowest_standard_fare :=
      some { total_amount := some { units := 5, nanos := 0, currency_code := some "THB" } },
    availability := some { available := some { available_seat_count := 7 } },
    operator_name := some "Sombat Tour" }

/-- Segment key shared by the two options: boarding 08:00, arrival 14:00
on 2026-01-15. -/
def cexSegKey : GSegmentKey :=
  { boarding_time := some ⟨2026, 1, 15, 8, 0⟩,
    arrival_time := some ⟨2026, 1, 15, 14, 0⟩,
    service_date := some ⟨2026, 1, 15⟩ }

/-- A legacy response whose two priced options share a departure time but
arrive dearer-first. -/
def cexStableResp : GResponse :=
  { bulk_trip_options_result := some
      { itinerary_responses :=
          [{ itinerary := some { segment_keys := [cexSegKey] },
             trip_option_set := some { trip_options := [cexOptTen, cexOptFive] } }] } }

/-- C2 counterexample: on a response with two equal-departure options
priced 10 then 5, `parseApiResponse` returns them in upstream order
(10 before 5); its sort has no price tiebreak, so the output is not
sorted by price at equal departure times. -/
theorem parseApiResponse_price_tiebreak_counterexample :
    ((parseApiResponse cexStableResp "ST1" "ST2" "2026-01-15" .twelveGo
        (fun _ => none)).map (fun t => t.departureTime)) = ["08:00", "08:00"] ∧
    ((parseApiResponse cexStableResp "ST1" "ST2" "2026-01-15" .twelveGo
        (fun _ => none)).map (fun t => t.price.amount)) = [10, 5] ∧
    ¬ (parseApiResponse cexStableResp "ST1" "ST2" "2026-01-15" .twelveGo
        (fun _ => none)).Pairwise tripLexLe := by
  refine ⟨by decide, by decide, by decide⟩

/-- C4 (amended): every trip of the POI-keyed adapter has non-empty
segments and a non-negative duration — the sum of its segments' parsed
ISO-8601 travel durations, which need not equal the end-to-end span of
its departure/arrival fields; every trip of the legacy adapter has
exactly one segment and duration equal to its arrival datetime minus its
departure datetime in minutes, which can be negative when the upstream
arrival precedes the boarding. -/
theorem adapters_duration_amended :
    (∀ (data : TCApiResponse) (departurePoi arrivalPoi : String),
      ∀ t ∈ parseItinerariesResponse data departurePoi arrivalPoi,
        t.segments ≠ [] ∧ 0 ≤ t.duration) ∧
    (∀ (resp : GResponse) (origin destination date : String) (co : Company)
      (dir : String → Option Station),
      ∀ t ∈ parseApiResponse resp origin destination date co dir,
        t.duration = dateTimeMinutes t.arrivalDate t.arrivalTime -
          dateTimeMinutes t.departureDate t.departureTime ∧
        t.segments.length = 1) := by
  constructor
  · intro data dep arr t ht
    obtain ⟨itin, _, heq⟩ := mem_parseItinerariesResponse ht
    exact tcTripOfItinerary_shape heq
  · intro resp o d date co dir t ht
    obtain ⟨b, a, sd, opt, heq⟩ := mem_parseApiResponse ht
    obtain ⟨hdur, s, hseg, -, -, -, -⟩ := legacyTripOf_shape heq
    exact ⟨hdur, by rw [hseg]; rfl⟩

/-- The TC segment of the duration counterexample: a 10:00 to 12:00 hop
whose declared travel duration is only one hour. -/
def cexDurSeg : TCSegment :=
  { id := "S1", from_station := "STA", to_station := "STB",
    departure_time := "2026-01-15T10:00", arrival_time := "2026-01-15T12:00",
    travel_duration := "PT1H", vehicle_id := "V1", operating_carrier_id := "C1",
    operating_carrier_name := some "Lomprayah", seat_class_id := "E",
    transportation_types := ["ferry"] }

/-- The TC itinerary of the duration counterexample. -/
def cexDurItin : TCItinerary :=
  { id := "I1", departure_segments := ["S1"], number_of_available_seats := 4,
    pricing := { gross_price := { currency := "THB", amount := 300 },
                 net_price := { currency := "THB", amount := 280 } } }

/-- The TC response of the duration counterexample. -/
def cexDurResp : TCApiResponse :=
  { vehicles := [{ id := "V1", name := "Boat 1", operating_carrier_id := "C1",
                   operating_carrier_name := "Lomprayah", image_url := none }],
    segments := [cexDurSeg],
    itineraries := [cexDurItin] }

/-- A legacy segment key whose arrival (08:00) precedes its boarding
(12:00) on the same service date. -/
def cexNegSegKey : GSegmentKey :=
  { boarding_time := some ⟨2026, 1, 15, 12, 0⟩,
    arrival_time := some ⟨2026, 1, 15, 8, 0⟩,
    service_date := some ⟨2026, 1, 15⟩ }

/-- The legacy response of the negative-duration counterexample. -/
def cexNegResp : GResponse :=
  { bulk_trip_options_result := some
      { itinerary_responses :=
          [{ itinerary := some { segment_keys := [cexNegSegKey] },
             trip_option_set := some { trip_options := [cexOptTen] } }] } }

/-- C4 counterexample: the POI-keyed adapter produces a trip whose
duration (60, the declared segment duration) differs from its arrival
minus departure fields (120 minutes), and the legacy adapter produces a
negative duration (-240) when the upstream arrival precedes boarding. -/
theorem adapters_duration_counterexample :
    ((parseItinerariesResponse cexDurResp "poiA" "poiB").map
      (fun t => t.duration)) = [60] ∧
    ((parseItinerariesResponse cexDurResp "poiA" "poiB").map
      (fun t => dateTimeMinutes t.arrivalDate t.arrivalTime -
        dateTimeMinutes t.departureDate t.departureTime)) = [120] ∧
    ((parseApiResponse cexNegResp "ST1" "ST2" "2026-01-15" .twelveGo
        (fun _ => none)).map (fun t => t.duration)) = [-240] := by
  refine ⟨by decide, by decide, by decide⟩

/-- An inert default trip used only as the `getD` fallback when naming a
concrete element of an adapter output. -/
def blankTrip : TripOption :=
  { id := "", bookingToken := "", departureTime := "", arrivalTime := "",
    departureDate := "", arrivalDate := "", duration := 0,
    price := { amount := 0, currency := "" }, operator := "",
    operatorLogo := none, vehicleType := .bus, availableSeats := 0,
    amenities := [], segments := [], redirectUrl := "",
    origin := { id := "", name := "", city := "" },
    destination := { id := "", name := "", city := "" } }

/-- The first trip of the duration counterexample's TC output. -/
def cexDurTrip : TripOption :=
  (parseItinerariesResponse cexDurResp "poiA" "poiB").getD 0 blankTrip

/-- The first trip of the negative-duration legacy output. -/
def cexNegTrip : TripOption :=
  (parseApiResponse cexNegResp "ST1" "ST2" "2026-01-15" .twelveGo
    (fun _ => none)).getD 0 blankTrip

set_option maxRecDepth 10000 in
theorem adapters_duration_amended_witness :
    (cexDurTrip.segments ≠ [] ∧ 0 ≤ cexDurTrip.duration) ∧
    (cexNegTrip.duration = dateTimeMinutes cexNegTrip.arrivalDate cexNegTrip.arrivalTime -
      dateTimeMinutes cexNegTrip.departureDate cexNegTrip.departureTime ∧
     cexNegTrip.segments.length = 1) :=
  ⟨adapters_duration_amended.1 cexDurResp "poiA" "poiB" cexDurTrip (by decide),
   adapters_duration_amended.2 cexNegResp "ST1" "ST2" "2026-01-15" .twelveGo
     (fun _ => none) cexNegTrip (by decide)⟩

/-- C10: every trip the legacy station-keyed adapter produces has exactly
one segment, and that segment's departure time, arrival time, operator
and vehicle type equal the trip's own. -/
theorem parseApiResponse_single_segment (resp : GResponse)
    (origin destination date : String) (co : Company)
    (dir : String → Option Station) :
    ∀ t ∈ parseApiResponse resp origin destination date co dir,
      ∃ s : TripSegment, t.segments = [s] ∧
        s.departureTime = t.departureTime ∧ s.arrivalTime = t.arrivalTime ∧
        s.operator = t.operator ∧ s.vehicleType = t.vehicleType := by
  intro t ht
  obtain ⟨b, a, sd, opt, heq⟩ := mem_parseApiResponse ht
  exact (legacyTripOf_shape heq).2

set_option maxRecDepth 10000 in
theorem parseApiResponse_single_segment_witness :
    ∃ s : TripSegment, cexNegTrip.segments = [s] ∧
      s.departureTime = cexNegTrip.departureTime ∧
      s.arrivalTime = cexNegTrip.arrivalTime ∧
      s.operator = cexNegTrip.operator ∧
      s.vehicleType = cexNegTrip.vehicleType :=
  parseApiResponse_single_segment cexNegResp "ST1" "ST2" "2026-01-15" .twelveGo
    (fun _ => none) cexNegTrip (by decide)

/-- The city aggregate of `stations-loader.ts` (`City`). -/
structure CityInfo where
  name : String
  province : String
  country : String
  stationCount : Nat
  stations : List Station
deriving Repr

/-- `getCityInfo` from `stations-loader.ts`, over a directory function
modelling the prebuilt by-city index: `null` when the city has no
stations, else the aggregate of its station list. -/
def getCityInfo (dir : String → List Station) (cityName : String) : Option CityInfo :=
  match dir cityName with
  | [] => none
  | s0 :: rest =>
    some { name := cityName, province := s0.province, country := s0.country,
           stationCount := (s0 :: rest).length, stations := s0 :: rest }

/-- The date regex `^\d{4}-\d{2}-\d{2}$` of the search route. -/
def dateFormatValid (s : String) : Bool :=
  match s.toList with
  | [a, b, c, d, s1, e, f, s2, g, h] =>
    s1 = '-' && s2 = '-' && [a, b, c, d, e, f, g, h].all Char.isDigit
  | _ => false

/-- The request surface of the search route `GET` handler that the
aggregation claims depend on (`company` and `stream` omitted: the claim
is about the non-streaming path, and `company` is forwarded unchanged). -/
structure SearchRequest where
  originCity : Option String
  destinationCity : Option String
  origin : Option String
  destination : Option String
  date : Option String

/-- The search-route meta block of the non-streaming city response. -/
structure SearchMeta where
  stationCombinations : Nat
  totalTripsFound : Nat
  uniqueTrips : Nat
  errors : Option (List String)
deriving Repr

/-- The observable responses of the search route `GET` handler. -/
inductive SearchGETResult where
  | errorResp (status : Nat) (message : String)
  | cityResp (status : Nat) (trips : List TripOption) (meta : SearchMeta)
  | singleResp (status : Nat) (trips : List TripOption)
deriving Repr

/-- All origin-station × destination-station id pairs, in the nested-loop
order of the handler. -/
def cityPairs (dir : String → List Station) (oc dc : String) : List (String × String) :=
  ((dir oc).map (fun os => (dir dc).map (fun ds => (os.id, ds.id)))).join

/-- The trips of a settled pair search, `none` for a rejection. -/
def exceptOk : Except String (List TripOption) → Option (List TripOption)
  | .ok ts => some ts
  | .error _ => none

/-- Whether a settled pair search was a rejection. -/
def exceptIsError : Except String (List TripOption) → Bool
  | .ok _ => false
  | .error _ => true

/-- The error message captured for a rejected pair
(`result.reason?.message || "Search failed"`). -/
def exceptErrMsg : Except String (List TripOption) → Option String
  | .ok _ => none
  | .error m => some (if m = "" then "Search failed" else m)

/-- The legacy single-pair branch of the `GET` handler: a missing station
id is a 400, an upstream failure surfaces through the catch as a 500, a
success is returned directly. -/
def searchGETLegacy (oracle : String → String → Except String (List TripOption))
    (req : SearchRequest) : SearchGETResult :=
  match req.origin with
  | none => .errorResp 400 "Missing required parameter: origin or originCity"
  | some o =>
    match req.destination with
    | none => .errorResp 400 "Missing required parameter: destination or destinationCity"
    | some d =>
      match oracle o d with
      | .ok ts => .singleResp 200 ts
      | .error _ => .errorResp 500 "Search failed. Please try again."

/-- The non-streaming `GET` handler of the search route: date validation,
city resolution, sequential concurrency-5 batches of pair searches whose
settled results aggregate in pair order (`Promise.allSettled` keeps order
within a batch and batches run in order, so the aggregation is the
in-order fold modelled here), deduplication, sort, and a 200 response
carrying the per-pair error messages in `meta`. -/
def searchGET (dir : String → List Station)
    (oracle : String → String → Except String (List TripOption))
    (req : SearchRequest) : SearchGETResult :=
  match req.date with
  | none => .errorResp 400 "Missing required parameter: date"
  | some date =>
    if date = "" then .errorResp 400 "Missing required parameter: date"
    else if dateFormatValid date then
      match req.originCity, req.destinationCity with
      | some oc, some dc =>
        if oc = "" ∨ dc = "" then searchGETLegacy oracle req
        else
          match getCityInfo dir oc with
          | none => .errorResp 404 ("Origin city not found: " ++ oc)
          | some _ =>
            match getCityInfo dir dc with
            | none => .errorResp 404 ("Destination city not found: " ++ dc)
            | some _ =>
              let searchPairs := cityPairs dir oc dc
              let results := searchPairs.map (fun p => oracle p.1 p.2)
              let allTrips := (results.filterMap exceptOk).join
              let errors := results.filterMap exceptErrMsg
              let uniqueTrips := List.insertionSort tripDepLe (deduplicateTrips allTrips)
              .cityResp 200 uniqueTrips
                { stationCombinations := searchPairs.length,
                  totalTripsFound := allTrips.length,
                  uniqueTrips := uniqueTrips.length,
                  errors := if errors.length > 0 then some errors else none }
      | _, _ => searchGETLegacy oracle req
    else .errorResp 400 "Invalid date format. Use YYYY-MM-DD"

/-- C3: on a valid city-to-city non-streaming search, the response status
is 200 whatever the pair outcomes; each failed pair contributes exactly
one message to `meta.errors` (its length equals the number of failed
pairs); the trips are the deduplicated, departure-sorted union of the
successful pairs; and when every pair fails the response is still a 200
with an empty trip list and one error per pair. -/
theorem searchGET_soft_failure
    (dir : String → List Station)
    (oracle : String → String → Except String (List TripOption))
    (oc dc date : String)
    (hoc : oc ≠ "") (hdc : dc ≠ "")
    (hdate : dateFormatValid date = true)
    (ho : dir oc ≠ []) (hd : dir dc ≠ []) :
    ∃ meta : SearchMeta,
      searchGET dir oracle
        { originCity := some oc, destinationCity := some dc,
          origin := none, destination := none, date := some date } =
        .cityResp 200
          (List.insertionSort tripDepLe (deduplicateTrips
            ((((cityPairs dir oc dc).map (fun p => oracle p.1 p.2)).filterMap
              exceptOk).join)))
          meta ∧
      (meta.errors.getD []).length =
        (((cityPairs dir oc dc).map (fun p => oracle p.1 p.2)).filter
          exceptIsError).length ∧
      ((∀ p ∈ cityPairs dir oc dc, exceptIsError (oracle p.1 p.2) = true) →
        List.insertionSort tripDepLe (deduplicateTrips
          ((((cityPairs dir oc dc).map (fun p => oracle p.1 p.2)).filterMap
            exceptOk).join)) = []) := by
  have hdt : date ≠ "" := by
    intro h
    rw [h] at hdate
    exact Bool.noConfusion hdate
  have hcity1 : ∃ s0 rest, dir oc = s0 :: rest := by
    rcases hh : dir oc with _ | ⟨s0, rest⟩
    · exact absurd hh ho
    · exact ⟨s0, rest, rfl⟩
  have hcity2 : ∃ s0 rest, dir dc = s0 :: rest := by
    rcases hh : dir dc with _ | ⟨s0, rest⟩
    · exact absurd hh hd
    · exact ⟨s0, rest, rfl⟩
  obtain ⟨o0, orest, ho1⟩ := hcity1
  obtain ⟨d0, drest, hd1⟩ := hcity2
  have hmsg : ∀ rs : List (Except String (List TripOption)),
      (rs.filterMap exceptErrMsg).length = (rs.filter exceptIsError).length := by
    intro rs
    induction rs with
    | nil => rfl
    | cons r rest ih =>
      cases r with
      | ok ts => simpa [exceptErrMsg, exceptIsError, List.filter_cons] using ih
      | error m =>
        simp [exceptErrMsg, exceptIsError, List.filter_cons, ih]
  set rs := (cityPairs dir oc dc).map (fun p => oracle p.1 p.2) with hrs
  set errs := rs.filterMap exceptErrMsg with herrs
  refine ⟨{ stationCombinations := (cityPairs dir oc dc).length,
            totalTripsFound := (rs.filterMap exceptOk).join.length,
            uniqueTrips :=
              (List.insertionSort tripDepLe
                (deduplicateTrips (rs.filterMap exceptOk).join)).length,
            errors := if errs.length > 0 then some errs else none }, ?_, ?_, ?_⟩
  · simp only [searchGET, getCityInfo, ho1, hd1]
    simp [hdt, hoc, hdc, hdate, ← hrs, ← herrs]
  · by_cases he : errs.length > 0
    · simpa [he] using hmsg rs
    · have h0 : errs.length = 0 := Nat.eq_zero_of_not_pos he
      simp only [he, if_false, Option.getD_none, List.length_nil]
      rw [← hmsg rs, ← herrs]
      exact h0.symm
  · intro hall
    have : (((cityPairs dir oc dc).map (fun p => oracle p.1 p.2)).filterMap
        exceptOk) = [] := by
      rw [List.filterMap_eq_nil]
      intro r hr
      rw [List.mem_map] at hr
      obtain ⟨p, hp, rfl⟩ := hr
      have := hall p hp
      cases hh : oracle p.1 p.2 with
      | ok ts => rw [hh] at this; exact Bool.noConfusion this
      | error m => simp [exceptOk]
    rw [this]
    rfl

/-- A directory station for the fan-out witness. -/
def wStation (i city : String) : Station :=
  { id := i, name := i, city := city, province := "P", country := "TH",
    lat := 0, lon := 0, company := "12go" }

/-- A witness directory: Bangkok has three stations, Phuket two. -/
def wDir (c : String) : List Station :=
  if c = "Bangkok" then
    [wStation "B1" "Bangkok", wStation "B2" "Bangkok", wStation "B3" "Bangkok"]
  else if c = "Phuket" then [wStation "P1" "Phuket", wStation "P2" "Phuket"]
  else []

/-- A witness oracle that rejects every pair search. -/
def wOracle : String → String → Except String (List TripOption) :=
  fun _ _ => .error "upstream timeout"

theorem searchGET_soft_failure_witness :
    ∃ meta : SearchMeta,
      searchGET wDir wOracle
        { originCity := some "Bangkok", destinationCity := some "Phuket",
          origin := none, destination := none, date := some "2026-06-01" } =
        .cityResp 200 [] meta ∧ (meta.errors.getD []).length = 6 := by
  obtain ⟨meta, h1, h2, h3⟩ := searchGET_soft_failure wDir wOracle "Bangkok"
    "Phuket" "2026-06-01" (by decide) (by decide) (by decide) (by decide) (by decide)
  refine ⟨meta, ?_, ?_⟩
  · rw [h3 (by decide)] at h1
    exact h1
  · rw [h2]
    decide

/-- The sort key of the filter state (`sortBy`). -/
inductive SortKey where
  | price
  | duration
  | departure
deriving DecidableEq, Repr

/-- The sort direction of the filter state (`sortOrder`). -/
inductive SortOrder where
  | asc
  | desc
deriving DecidableEq, Repr

/-- `FilterState` from `src/types/index.ts`. -/
structure FilterState where
  priceRange : Rat × Rat
  departureTimeRange : Int × Int
  vehicleTypes : List VehicleType
  operators : List String
  sortBy : SortKey
  sortOrder : SortOrder

/-- JS `parseInt` on a string: optional sign, then leading digits; `none`
models `NaN`. -/
def jsParseInt (s : String) : Option Int :=
  let digitsOf : List Char → Option Int := fun cs =>
    let d := cs.takeWhile Char.isDigit
    if d.isEmpty then none else some (digitsVal d : Int)
  match s.toList with
  | '-' :: rest => (digitsOf rest).map Int.neg
  | '+' :: rest => digitsOf rest
  | cs => digitsOf cs

/-- `parseInt(trip.departureTime.split(":")[0])`: the hour of a trip, the
filter rejecting the trip when it is `NaN`. -/
def hourOfDeparture (t : TripOption) : Option Int :=
  match splitOnChar ':' t.departureTime.toList with
  | h :: _ => jsParseInt (String.mk h)
  | [] => none

/-- The comparator key order of `applyFilters` (ascending direction). -/
def filterCmpLe (k : SortKey) (a b : TripOption) : Prop :=
  match k with
  | .price => a.price.amount ≤ b.price.amount
  | .duration => a.duration ≤ b.duration
  | .departure => a.departureTime ≤ b.departureTime

/-- Kernel-evaluable form of `filterCmpLe`. -/
def filterCmpLeB (k : SortKey) (a b : TripOption) : Bool :=
  match k with
  | .price => decide (a.price.amount ≤ b.price.amount)
  | .duration => decide (a.duration ≤ b.duration)
  | .departure => strLeB a.departureTime b.departureTime

theorem filterCmpLeB_iff (k : SortKey) (a b : TripOption) :
    filterCmpLeB k a b = true ↔ filterCmpLe k a b := by
  cases k <;> simp [filterCmpLeB, filterCmpLe, strLeB_iff]

/-- The effective sort order of `applyFilters`: the key comparator for
`asc`, its reverse for `desc` (the comparator is negated). JS `sort` is
stable; `List.insertionSort` models it. -/
def filterSortLe (f : FilterState) (a b : TripOption) : Prop :=
  match f.sortOrder with
  | .asc => filterCmpLe f.sortBy a b
  | .desc => filterCmpLe f.sortBy b a

instance (f : FilterState) : DecidableRel (filterSortLe f) := fun a b =>
  decidable_of_iff
    ((match f.sortOrder with
      | .asc => filterCmpLeB f.sortBy a b
      | .desc => filterCmpLeB f.sortBy b a) = true)
    (by cases ho : f.sortOrder <;> simp [filterSortLe, filterCmpLeB_iff, ho])

theorem filterCmpLe_trans (k : SortKey) (a b c : TripOption)
    (hab : filterCmpLe k a b) (hbc : filterCmpLe k b c) : filterCmpLe k a c := by
  cases k <;> simp only [filterCmpLe] at * <;> exact le_trans hab hbc

theorem filterCmpLe_total (k : SortKey) (a b : TripOption) :
    filterCmpLe k a b ∨ filterCmpLe k b a := by
  cases k <;> simp only [filterCmpLe] <;> exact le_total _ _

instance (f : FilterState) : IsTrans TripOption (filterSortLe f) := by
  constructor
  intro a b c hab hbc
  cases ho : f.sortOrder <;> simp only [filterSortLe, ho] at *
  · exact filterCmpLe_trans _ _ _ _ hab hbc
  · exact filterCmpLe_trans _ _ _ _ hbc hab

instance (f : FilterState) : IsTotal TripOption (filterSortLe f) := by
  constructor
  intro a b
  cases ho : f.sortOrder <;> simp only [filterSortLe, ho]
  · exact filterCmpLe_total _ _ _
  · exact (filterCmpLe_total _ _ _).symm

/-- The price-range stage of `applyFilters` (inclusive bounds). -/
def priceStage (f : FilterState) (rs : List TripOption) : List TripOption :=
  rs.filter (fun t =>
    decide (f.priceRange.1 ≤ t.price.amount ∧ t.price.amount ≤ f.priceRange.2))

/-- The departure-hour stage of `applyFilters`: `start ≤ hour < end`, a
`NaN` hour failing the comparison. -/
def timeStage (f : FilterState) (rs : List TripOption) : List TripOption :=
  rs.filter (fun t =>
    match hourOfDeparture t with
    | none => false
    | some h => decide (f.departureTimeRange.1 ≤ h ∧ h < f.departureTimeRange.2))

/-- The vehicle-type stage of `applyFilters`: applied only when the list
is non-empty (`if (filters.vehicleTypes.length > 0)`). -/
def vehicleStage (f : FilterState) (rs : List TripOption) : List TripOption :=
  if f.vehicleTypes.length > 0 then
    rs.filter (fun t => f.vehicleTypes.contains t.vehicleType)
  else rs

/-- The operator stage of `applyFilters`: applied only when the list is
non-empty. -/
def operatorStage (f : FilterState) (rs : List TripOption) : List TripOption :=
  if f.operators.length > 0 then
    rs.filter (fun t => f.operators.contains t.operator)
  else rs

/-- `applyFilters` from the search hook (`useSearch.ts`): price, hour,
vehicle-type and operator stages in order, then the stable sort by the
selected key and direction. -/
def applyFilters (results : List TripOption) (f : FilterState) : List TripOption :=
  List.insertionSort (filterSortLe f)
    (operatorStage f (vehicleStage f (timeStage f (priceStage f results))))

/-- C5 (amended): in `applyFilters`, an empty `operators` list leaves the
outcome unchanged (the operator stage is skipped, allow-all), and an
empty `vehicleTypes` list equally leaves the outcome unchanged (the
vehicle stage is skipped, allow-all) — it does not remove all results;
with both lists empty the result is just the price/time-filtered list,
sorted. -/
theorem applyFilters_empty_lists (rs : List TripOption) (f : FilterState) :
    (f.operators = [] → ∀ x : List TripOption, operatorStage f x = x) ∧
    (f.vehicleTypes = [] → ∀ x : List TripOption, vehicleStage f x = x) ∧
    (f.operators = [] → f.vehicleTypes = [] →
      applyFilters rs f =
        List.insertionSort (filterSortLe f) (timeStage f (priceStage f rs))) := by
  refine ⟨?_, ?_, ?_⟩
  · intro h x
    simp [operatorStage, h]
  · intro h x
    simp [vehicleStage, h]
  · intro hop hv
    unfold applyFilters
    rw [show ∀ x, vehicleStage f x = x from fun x => by simp [vehicleStage, hv],
        show ∀ x, operatorStage f x = x from fun x => by simp [operatorStage, hop]]

/-- The filter state of the C5 counterexample: empty vehicle-type list
(the claim predicts it removes everything), permissive everything else. -/
def cexEmptyVehicleFilters : FilterState :=
  { priceRange := (0, 10000), departureTimeRange := (0, 24),
    vehicleTypes := [], operators := [],
    sortBy := .departure, sortOrder := .asc }

/-- A bus trip passing the permissive price and hour filters. -/
def cexFilterTrip : TripOption :=
  { blankTrip with
    id := "f1", departureTime := "08:00", arrivalTime := "10:00",
    departureDate := "2026-01-15", arrivalDate := "2026-01-15", duration := 120,
    price := { amount := 50, currency := "THB" }, operator := "Sombat Tour",
    vehicleType := .bus, availableSeats := 10 }

/-- C5 counterexample: with an explicitly assigned empty `vehicleTypes`
list the filter keeps the results (the stage is guarded by
`length > 0`), so the claimed remove-all behavior does not occur. -/
theorem applyFilters_empty_vehicleTypes_counterexample :
    cexEmptyVehicleFilters.vehicleTypes = [] ∧
    applyFilters [cexFilterTrip] cexEmptyVehicleFilters = [cexFilterTrip] := by
  refine ⟨rfl, by decide⟩

theorem applyFilters_empty_lists_witness :
    ∀ x : List TripOption, operatorStage cexEmptyVehicleFilters x = x :=
  (applyFilters_empty_lists [] cexEmptyVehicleFilters).1 (by decide)

/-- The JS `\s` whitespace class, restricted to the ASCII whitespace the
place-name strings can carry. -/
def isWsChar (c : Char) : Bool :=
  c = ' ' || c = '\t' || c = '\n' || c = '\r'

/-- Strip a trailing `\s+word` from a character list (the
`replace(/\s+island$/i, "")` / `replace(/\s+beach$/i, "")` steps, applied
after lowercasing): the word must terminate the string and be preceded by
at least one whitespace character. -/
def stripSuffixWord (word : String) (cs : List Char) : List Char :=
  let rev := cs.reverse
  if listStarts word.toList.reverse rev then
    let rest := rev.drop word.length
    match rest with
    | c :: _ =>
      if isWsChar c then (rest.dropWhile isWsChar).reverse else cs
    | [] => cs
  else cs

/-- Collapse whitespace runs to one space (`replace(/\s+/g, " ")`). -/
def collapseWs : List Char → List Char
  | [] => []
  | [c] => [if isWsChar c then ' ' else c]
  | c1 :: c2 :: rest =>
    if isWsChar c1 && isWsChar c2 then collapseWs (c2 :: rest)
    else (if isWsChar c1 then ' ' else c1) :: collapseWs (c2 :: rest)

/-- JS `String.prototype.trim`. -/
def trimWs (cs : List Char) : List Char :=
  ((cs.dropWhile isWsChar).reverse.dropWhile isWsChar).reverse

/-- `normalizeName` from `poi-loader.ts`: lowercase, drop hyphens, rewrite
a leading `koh`/`ko` (with any following whitespace) to `ko `, strip
trailing ` island`/` beach`, collapse whitespace, trim. -/
def normalizeName (name : String) : String :=
  let cs0 := (name.toList.map Char.toLower).filter (fun c => c ≠ '-')
  let cs1 :=
    match cs0 with
    | 'k' :: 'o' :: 'h' :: rest => 'k' :: 'o' :: ' ' :: rest.dropWhile isWsChar
    | _ => cs0
  let cs2 :=
    match cs1 with
    | 'k' :: 'o' :: rest => 'k' :: 'o' :: ' ' :: rest.dropWhile isWsChar
    | _ => cs1
  let cs3 := stripSuffixWord "island" cs2
  let cs4 := stripSuffixWord "beach" cs3
  String.mk (trimWs (collapseWs cs4))

example : normalizeName "Koh Phangan" = "ko phangan" := by decide
example : normalizeName "ko phangan" = "ko phangan" := by decide
example : normalizeName "Pha-ngan Island" = "phangan" := by decide

/-- A POI of `poi-loader.ts`; its station list is unread by the resolver
and omitted. -/
structure POI where
  id : String
  name : String
  country : String
deriving DecidableEq, Repr

/-- JS `String.prototype.startsWith`. -/
def strStarts (s pre : String) : Bool :=
  listStarts pre.toList s.toList

/-- `Map.get` over entries inserted in order: the last `set` wins. -/
def mapGetLast (m : List (String × POI)) (k : String) : Option POI :=
  ((m.filter (fun p => p.1 = k)).getLast?).map Prod.snd

/-- The `byName` map of `buildCache`: exact names in insertion order. -/
def buildByName (pois : List POI) : List (String × POI) :=
  pois.map (fun p => (p.name, p))

/-- The base name of an island POI, `name.replace(/^Ko[h]?\s+/i, "")`
(capital-K spellings, the only ones the guard admits). -/
def koBaseName (name : String) : String :=
  match name.toList with
  | 'K' :: 'o' :: 'h' :: c :: rest =>
    if isWsChar c then String.mk ((c :: rest).dropWhile isWsChar) else name
  | 'K' :: 'o' :: c :: rest =>
    if isWsChar c then String.mk ((c :: rest).dropWhile isWsChar) else name
  | _ => name

/-- The `byNameLower` map of `buildCache`: normalized names, plus
`ko X` / `koh X` variations for island POIs. -/
def buildByNameLower (pois : List POI) : List (String × POI) :=
  (pois.map (fun p =>
    (normalizeName p.name, p) ::
    (if strStarts p.name "Ko " || strStarts p.name "Koh " then
      [("ko " ++ strLower (koBaseName p.name), p),
       ("koh " ++ strLower (koBaseName p.name), p)]
     else []))).join

/-- `searchPOIs` from `poi-loader.ts`: the first `limit` POIs whose
lowercased or normalized name contains the (lowercased or normalized)
query. -/
def searchPOIs (pois : List POI) (query : String) (limit : Nat) : List POI :=
  (pois.filter (fun p =>
    strIncludes (strLower p.name) (strLower query) ||
    strIncludes (normalizeName p.name) (normalizeName query))).take limit

/-- The resolver confidence (`"exact" | "normalized" | "partial" | "none"`;
the `none` tag is never produced). -/
inductive Confidence where
  | exactMatch
  | normalizedMatch
  | partialMatch
  | noneMatch
deriving DecidableEq, Repr

/-- The resolver result `{poi, name, confidence}`. -/
structure POIMatch where
  poi : String
  name : String
  confidence : Confidence
deriving DecidableEq, Repr

/-- `translateToPOI` from `poi-loader.ts`: exact name lookup, then
normalized lookup, then first fuzzy search result, else `null`. -/
def translateToPOI (pois : List POI) (placeName : String) : Option POIMatch :=
  match mapGetLast (buildByName pois) placeName with
  | some p => some { poi := p.id, name := p.name, confidence := .exactMatch }
  | none =>
    match mapGetLast (buildByNameLower pois) (normalizeName placeName) with
    | some p => some { poi := p.id, name := p.name, confidence := .normalizedMatch }
    | none =>
      match searchPOIs pois placeName 1 with
      | p :: _ => some { poi := p.id, name := p.name, confidence := .partialMatch }
      | [] => none

/-- The directory of Scenario D. -/
def kohPhanganPOI : POI :=
  { id := "poi_kp", name := "Koh Phangan", country := "TH" }

/-- C6: `translateToPOI` resolves by exact lookup first (confidence
`exact`), then normalized lookup (`normalized`), then the first fuzzy
search result (`partial`), and returns `null` when all three fail; and
the Scenario-D query `"ko phangan"` against a directory holding
`"Koh Phangan"` resolves to that POI with confidence `normalized`. -/
theorem translateToPOI_resolution_order :
    (∀ (pois : List POI) (placeName : String),
      (∀ p, mapGetLast (buildByName pois) placeName = some p →
        translateToPOI pois placeName =
          some { poi := p.id, name := p.name, confidence := .exactMatch }) ∧
      (mapGetLast (buildByName pois) placeName = none →
        ∀ p, mapGetLast (buildByNameLower pois) (normalizeName placeName) = some p →
          translateToPOI pois placeName =
            some { poi := p.id, name := p.name, confidence := .normalizedMatch }) ∧
      (mapGetLast (buildByName pois) placeName = none →
        mapGetLast (buildByNameLower pois) (normalizeName placeName) = none →
        ∀ p rest, searchPOIs pois placeName 1 = p :: rest →
          translateToPOI pois placeName =
            some { poi := p.id, name := p.name, confidence := .partialMatch }) ∧
      (mapGetLast (buildByName pois) placeName = none →
        mapGetLast (buildByNameLower pois) (normalizeName placeName) = none →
        searchPOIs pois placeName 1 = [] →
        translateToPOI pois placeName = none)) ∧
    translateToPOI [kohPhanganPOI] "ko phangan" =
      some { poi := "poi_kp", name := "Koh Phangan",
             confidence := .normalizedMatch } := by
  constructor
  · intro pois placeName
    refine ⟨?_, ?_, ?_, ?_⟩
    · intro p hp
      simp [translateToPOI, hp]
    · intro h1 p hp
      simp [translateToPOI, h1, hp]
    · intro h1 h2 p rest hp
      simp [translateToPOI, h1, h2, hp]
    · intro h1 h2 h3
      simp [translateToPOI, h1, h2, h3]
  · decide

/-- `query.toLowerCase().trim()` of `searchStations`. -/
def strTrimLower (q : String) : String :=
  String.mk (trimWs (q.toList.map Char.toLower))

/-- JS `split(/\s+/)` on the ASCII whitespace of station names. -/
def splitWsStr (s : String) : List String :=
  (splitOnChar ' ' (collapseWs s.toList)).map String.mk

/-- The per-station score of `searchStations` in `stations-loader.ts`:
within the exact, starts-with and contains tiers the name, city and
province checks are `else if`-chained (only the first matching field
counts); the word-boundary bonus is a single +30; the four tiers sum. -/
def stationScore (q : String) (station : Station) : Nat :=
  let name := strLower station.name
  let city := strLower station.city
  let province := strLower station.province
  let exactTier : Nat :=
    if name = q then 100 else if city = q then 90 else if province = q then 80 else 0
  let startTier : Nat :=
    if strStarts name q then 50
    else if strStarts city q then 45
    else if strStarts province q then 40
    else 0
  let containsTier : Nat :=
    if strIncludes name q then 20
    else if strIncludes city q then 15
    else if strIncludes province q then 10
    else 0
  let words := splitWsStr name ++ splitWsStr city ++ splitWsStr province
  let wordTier : Nat := if words.any (fun w => strStarts w q) then 30 else 0
  exactTier + startTier + containsTier + wordTier

/-- The score as the claim words it (a definition following the claim, to
be compared with `stationScore`): ALL applicable bonuses sum, the name,
city and province matches not mutually exclusive within a tier. -/
def stationScoreClaim (q : String) (station : Station) : Nat :=
  let name := strLower station.name
  let city := strLower station.city
  let province := strLower station.province
  (if name = q then 100 else 0) + (if city = q then 90 else 0) +
    (if province = q then 80 else 0) +
    (if strStarts name q then 50 else 0) + (if strStarts city q then 45 else 0) +
    (if strStarts province q then 40 else 0) +
    (if strIncludes name q then 20 else 0) + (if strIncludes city q then 15 else 0) +
    (if strIncludes province q then 10 else 0) +
    (if ((splitWsStr name ++ splitWsStr city ++ splitWsStr province).any
        (fun w => strStarts w q)) then 30 else 0)

/-- Descending order on scored stations (`(a, b) => b.score - a.score`),
stable under `List.insertionSort` like the JS sort. -/
def scoredLe (a b : Station × Nat) : Prop :=
  b.2 ≤ a.2

instance : DecidableRel scoredLe := fun a b => by
  unfold scoredLe
  infer_instance

instance : IsTrans (Station × Nat) scoredLe :=
  ⟨fun _ _ _ hab hbc => le_trans hbc hab⟩

instance : IsTotal (Station × Nat) scoredLe :=
  ⟨fun a b => (le_total b.2 a.2).symm.symm⟩

/-- `searchStations` from `stations-loader.ts`: a query shorter than two
characters yields nothing; otherwise score the (optionally
country-filtered) stations, keep strictly positive scores, sort
descending by score, take `limit`, and return the stations. -/
def searchStations (stationsData : List Station) (query : String)
    (limit : Nat) (country : Option String) : List Station :=
  if query = "" ∨ query.length < 2 then []
  else
    let normalizedQuery := strTrimLower query
    let eligible := stationsData.filter (fun st =>
      match country with
      | some c => if c = "" then true else decide (strLower st.country = strLower c)
      | none => true)
    let scored := eligible.map (fun st => (st, stationScore normalizedQuery st))
    ((List.insertionSort scoredLe (scored.filter (fun p => decide (0 < p.2)))).take
      limit).map Prod.fst

theorem searchStations_member_invariant {stationsData : List Station}
    {query : String} {country : Option String}
    {p : Station × Nat}
    (hp : p ∈ List.insertionSort scoredLe
      (((stationsData.filter (fun st =>
          match country with
          | some c => if c = "" then true else decide (strLower st.country = strLower c)
          | none => true)).map
            (fun st => (st, stationScore (strTrimLower query) st))).filter
        (fun p => decide (0 < p.2)))) :
    p.2 = stationScore (strTrimLower query) p.1 ∧ p.1 ∈ stationsData ∧ 0 < p.2 := by
  rw [(List.perm_insertionSort _ _).mem_iff, List.mem_filter] at hp
  obtain ⟨hmem, hpos⟩ := hp
  rw [List.mem_map] at hmem
  obtain ⟨st, hst, rfl⟩ := hmem
  refine ⟨rfl, List.mem_of_mem_filter hst, by simpa using hpos⟩

/-- C8 (amended): for a query of length at least 2, `searchStations`
scores each station by the sum of the four tier bonuses where, inside the
exact, starts-with and contains tiers, only the highest-priority matching
field (name, else city, else province) contributes (`stationScore`);
only strictly positive totals are returned, sorted descending by score,
at most `limit` of them, all drawn from the directory. -/
theorem searchStations_spec (stationsData : List Station) (query : String)
    (limit : Nat) (country : Option String)
    (hq : ¬ (query = "" ∨ query.length < 2)) :
    (searchStations stationsData query limit country).Pairwise
      (fun a b => stationScore (strTrimLower query) b ≤
        stationScore (strTrimLower query) a) ∧
    (∀ st ∈ searchStations stationsData query limit country,
      0 < stationScore (strTrimLower query) st ∧ st ∈ stationsData) ∧
    (searchStations stationsData query limit country).length ≤ limit := by
  unfold searchStations
  rw [if_neg hq]
  simp only []
  refine ⟨?_, ?_, ?_⟩
  · rw [List.pairwise_map]
    have hsorted := List.sorted_insertionSort scoredLe
      (((stationsData.filter (fun st =>
          match country with
          | some c => if c = "" then true else decide (strLower st.country = strLower c)
          | none => true)).map
        (fun st => (st, stationScore (strTrimLower query) st))).filter
          (fun p => decide (0 < p.2)))
    have htake := hsorted.sublist (List.take_sublist limit _)
    refine htake.imp_of_mem ?_
    intro a b ha hb hab
    have ha2 := searchStations_member_invariant
      ((List.take_sublist limit _).subset ha)
    have hb2 := searchStations_member_invariant
      ((List.take_sublist limit _).subset hb)
    rw [← ha2.1, ← hb2.1]
    exact hab
  · intro st hst
    rw [List.mem_map] at hst
    obtain ⟨p, hp, rfl⟩ := hst
    have h2 := searchStations_member_invariant
      ((List.take_sublist limit _).subset hp)
    exact ⟨h2.1 ▸ h2.2.2, h2.2.1⟩
  · rw [List.length_map]
    exact List.length_take_le _ _

/-- The station of the tier counterexample: name and city both equal the
query, province does not. -/
def cexScoreStation : Station :=
  { id := "BKK1", name := "Bangkok", city := "Bangkok", province := "Central",
    country := "TH", lat := 0, lon := 0, company := "12go" }

/-- C8 counterexample: a station whose name AND city both match the query
exactly scores 200 in the code (only the name branch of each tier fires),
not the 350 the all-bonuses-sum reading predicts — the tiers are
mutually exclusive across name/city/province. -/
theorem searchStations_tier_counterexample :
    strLower cexScoreStation.name = "bangkok" ∧
    strLower cexScoreStation.city = "bangkok" ∧
    stationScore "bangkok" cexScoreStation = 200 ∧
    stationScoreClaim "bangkok" cexScoreStation = 350 ∧
    stationScore "bangkok" cexScoreStation ≠
      stationScoreClaim "bangkok" cexScoreStation := by
  refine ⟨by decide, by decide, by decide, by decide, by decide⟩

theorem searchStations_spec_witness :
    (searchStations [cexScoreStation] "Bangkok" 10 none).Pairwise
      (fun a b => stationScore (strTrimLower "Bangkok") b ≤
        stationScore (strTrimLower "Bangkok") a) ∧
    (∀ st ∈ searchStations [cexScoreStation] "Bangkok" 10 none,
      0 < stationScore (strTrimLower "Bangkok") st ∧ st ∈ [cexScoreStation]) ∧
    (searchStations [cexScoreStation] "Bangkok" 10 none).length ≤ 10 :=
  searchStations_spec [cexScoreStation] "Bangkok" 10 none (by decide)

/-- An article card of the chat route (`ArticleData`). -/
structure ArticleData where
  id : String
  title : String
  url : String
  imageUrl : Option String
  excerpt : Option String
  destination : Option String
deriving DecidableEq, Repr

/-- The observable part of one `handleToolCall` result: the optional trip
array (present only when a `search_trips` call produced results) and the
optional article array. The `result` text fed back to the model does not
affect the accumulation. -/
structure ToolCallOutcome where
  trips : Option (List TripOption)
  articles : Option (List ArticleData)
deriving Repr

/-- One iteration of the accumulation in the `POST` tool-use loop:
`if (toolResult.trips) allTrips = toolResult.trips` (replace) and
`if (toolResult.articles) allArticles = [...allArticles, ...]` (append). -/
def chatStep (acc : List TripOption × List ArticleData) (r : ToolCallOutcome) :
    List TripOption × List ArticleData :=
  (match r.trips with
   | some ts => ts
   | none => acc.1,
   match r.articles with
   | some arts => acc.2 ++ arts
   | none => acc.2)

/-- The trip/article accumulation over the tool-use iterations of one
chat turn, starting from the empty sets. -/
def chatAccum (results : List ToolCallOutcome) :
    List TripOption × List ArticleData :=
  results.foldl chatStep ([], [])

/-- The last trip array delivered by any tool call of the turn, empty
when none delivered one. -/
def lastTripsOf (results : List ToolCallOutcome) : List TripOption :=
  (results.foldl (fun acc r =>
    match r.trips with
    | some ts => some ts
    | none => acc) none).getD []

theorem lastWrite_foldl (results : List ToolCallOutcome) :
    ∀ a : Option (List TripOption),
      results.foldl (fun acc r =>
        match r.trips with
        | some ts => some ts
        | none => acc) a =
      match results.foldl (fun acc r =>
        match r.trips with
        | some ts => some ts
        | none => acc) none with
      | some x => some x
      | none => a := by
  induction results with
  | nil => intro a; rfl
  | cons r rest ih =>
    intro a
    rw [List.foldl_cons, List.foldl_cons, ih]
    conv => rhs; rw [ih]
    cases hF : rest.foldl (fun acc r =>
      match r.trips with
      | some ts => some ts
      | none => acc) none with
    | some x => rfl
    | none => cases r.trips <;> rfl

theorem chatAccum_trips_foldl (results : List ToolCallOutcome) :
    ∀ init : List TripOption × List ArticleData,
      (results.foldl chatStep init).1 =
        (results.foldl (fun acc r =>
          match r.trips with
          | some ts => some ts
          | none => acc) (some init.1)).getD [] := by
  induction results with
  | nil => intro init; rfl
  | cons r rest ih =>
    intro init
    rw [List.foldl_cons, List.foldl_cons, ih]
    cases hr : r.trips <;> simp [chatStep, hr]

theorem chatAccum_articles_foldl (results : List ToolCallOutcome) :
    ∀ init : List TripOption × List ArticleData,
      (results.foldl chatStep init).2 =
        init.2 ++ (results.filterMap (fun r => r.articles)).join := by
  induction results with
  | nil => intro init; simp
  | cons r rest ih =>
    intro init
    rw [List.foldl_cons, ih]
    cases ha : r.articles <;> simp [chatStep, ha, List.filterMap_cons]

/-- C9: across the tool-use iterations of one chat turn, the trip set
sent with the response is the trip array of the latest tool call that
returned trips (later `search_trips` results replace earlier ones, they
do not union), while article results accumulate by appending in call
order. -/
theorem chatAccum_spec (results : List ToolCallOutcome) :
    (chatAccum results).1 = lastTripsOf results ∧
    (chatAccum results).2 = (results.filterMap (fun r => r.articles)).join := by
  unfold chatAccum lastTripsOf
  constructor
  · rw [chatAccum_trips_foldl, lastWrite_foldl]
    cases hF : results.foldl (fun acc r =>
      match r.trips with
      | some ts => some ts
      | none => acc) none <;> simp [hF]
  · rw [chatAccum_articles_foldl]
    simp
